import Mathlib

/-!
The cucumber world of the integration tests, `features/support/world.js`.

A shallow embedding of `CustomWorld` and of the `After` hook.

* A registry (`this.seeds`, `this.nodes`, ...) is a plain JavaScript object used as a
  dictionary.  It is embedded as `JsObj`: the own properties in creation order, and the
  object a write to `__proto__` installed as prototype, if any.  A read `o[k]` looks at
  the own properties, then at the installed prototype, then at `Object.prototype`
  (`JsObj.get`).  A write `o[k] = v` replaces an own property in place, installs `v` as
  prototype when `k` is `__proto__`, and creates a new own property otherwise
  (`JsObj.set`).  `for ... in` visits the own keys (array indices first, in ascending
  numeric order, then the other keys in creation order) and after them the enumerable
  keys reached through the installed prototype (`JsObj.forIn`).
* `this.transactionsMap` is a `Map`; it is embedded as an association list in insertion
  order.
* The process wrappers and the RPC clients live in other files.  Their objects are
  handles (`Proc`, `Client`) carrying the constructor arguments and an allocation number
  that plays the role of object identity; what their methods answer, which properties
  they carry and what happens on a value read out of one of them is a parameter
  (`Env`); every call made on them is recorded in a trace of `Event`s.  They are taken
  to be ordinary objects: they inherit from `Object.prototype` and their properties are
  writable data properties.
* An `async` method is embedded by its settled outcome: `Except Err α` together with the
  state and the trace it leaves behind.
-/

namespace CustomWorld

/-! ## JavaScript objects used as dictionaries -/

/-- The numeric value of a string of decimal digits. -/
def digitsValue (cs : List Char) : Nat :=
  cs.foldl (fun n c => 10 * n + (c.toNat - 48)) 0

/-- Canonical numeric strings: digits only, no leading zero except for `"0"` itself. -/
def canonicalDigits : List Char → Bool
  | [] => false
  | [c] => c.isDigit
  | c :: cs => c.isDigit && c != '0' && cs.all Char.isDigit

/-- The array index a property key denotes, if any: the key is the canonical decimal
string of an integer between `0` and `2^32 - 2`. -/
def arrayIndex (k : String) : Option Nat :=
  if canonicalDigits k.data && decide (digitsValue k.data < 4294967295) then
    some (digitsValue k.data)
  else none

/-- The function-valued properties of `Object.prototype`; none of them is enumerable. -/
def objectPrototypeMembers : List String :=
  ["constructor", "__defineGetter__", "__defineSetter__", "hasOwnProperty",
    "__lookupGetter__", "__lookupSetter__", "isPrototypeOf", "propertyIsEnumerable",
    "toString", "valueOf", "toLocaleString"]

/-- What a read `o[k]` of a registry yields. -/
inductive Val (α : Type) where
  /-- Nothing is found along the prototype chain. -/
  | undefined
  /-- An object the world stored: an own property, or the installed prototype read
  through `__proto__`. -/
  | handle (v : α)
  /-- The object `Object.prototype`, read through `__proto__` when no prototype was
  installed. -/
  | objectPrototype
  /-- A function inherited from `Object.prototype`. -/
  | builtin (name : String)
  /-- The property `key` of the object installed as prototype. -/
  | inherited (holder : α) (key : String)
  deriving DecidableEq, Repr

/-- An object used as a dictionary: its own properties in creation order, and the
object installed as its prototype; `none` stands for `Object.prototype`. -/
structure JsObj (α : Type) where
  entries : List (String × α)
  proto : Option α
  deriving DecidableEq, Repr

namespace JsObj

variable {α : Type}

/-- The object literal `{}`. -/
def empty : JsObj α := ⟨[], none⟩

/-- Lookup among the own properties. -/
def getEntries : List (String × α) → String → Option α
  | [], _ => none
  | (k', v) :: rest, k => if k' = k then some v else getEntries rest k

/-- Write among the own properties: an existing property keeps its place, a new one is
created last. -/
def setEntries : List (String × α) → String → α → List (String × α)
  | [], k, v => [(k, v)]
  | (k', v') :: rest, k, v =>
    if k' = k then (k', v) :: rest else (k', v') :: setEntries rest k v

/-- What the end of the prototype chain, `Object.prototype`, answers for a key other
than `__proto__`. -/
def fromObjectPrototype (k : String) : Val α :=
  if k ∈ objectPrototypeMembers then Val.builtin k else Val.undefined

/-- Property read `o[k]`.  `has p k` tells whether the object `p` carries a property
`k` of its own or from its class. -/
def get (has : α → String → Bool) (o : JsObj α) (k : String) : Val α :=
  match getEntries o.entries k with
  | some v => Val.handle v
  | none =>
    if k = "__proto__" then
      match o.proto with
      | some p => Val.handle p
      | none => Val.objectPrototype
    else
      match o.proto with
      | some p => if has p k then Val.inherited p k else fromObjectPrototype k
      | none => fromObjectPrototype k

/-- Property write `o[k] = v` of an object `v`: an own property is replaced in place;
otherwise the key `__proto__` reaches the setter of `Object.prototype`, which installs
`v` as prototype and creates no property; any other key creates a new own property. -/
def set (o : JsObj α) (k : String) (v : α) : JsObj α :=
  match getEntries o.entries k with
  | some _ => { o with entries := setEntries o.entries k v }
  | none =>
    if k = "__proto__" then { o with proto := some v }
    else { o with entries := setEntries o.entries k v }

/-- Insertion of an array-index key into an ascending list of them. -/
def insertIndex (i : Nat) (k : String) : List (Nat × String) → List (Nat × String)
  | [] => [(i, k)]
  | (j, k') :: rest =>
    if i ≤ j then (i, k) :: (j, k') :: rest else (j, k') :: insertIndex i k rest

/-- The own keys that are array indices, in ascending numeric order. -/
def indexKeys : List (String × α) → List (Nat × String)
  | [] => []
  | (k, _) :: rest =>
    match arrayIndex k with
    | some i => insertIndex i k (indexKeys rest)
    | none => indexKeys rest

/-- The own keys that are not array indices, in creation order. -/
def stringKeys (l : List (String × α)) : List String :=
  (l.filter (fun kv => (arrayIndex kv.1).isNone)).map Prod.fst

/-- The names of the own properties, in creation order. -/
def ownNames (o : JsObj α) : List String := o.entries.map Prod.fst

/-- The own keys in the order `for ... in` visits them. -/
def ownKeys (o : JsObj α) : List String :=
  (indexKeys o.entries).map Prod.snd ++ stringKeys o.entries

/-- The keys `for (const k in o)` visits: the own keys, then the enumerable keys
reached through the installed prototype that no own property hides.  `enumerable p`
lists the keys a `for ... in` over the object `p` visits. -/
def forIn (enumerable : α → List String) (o : JsObj α) : List String :=
  ownKeys o ++
    match o.proto with
    | some p => (enumerable p).filter (fun k => !(o.ownNames.contains k))
    | none => []

/-- An object is stored under the name: as an own property, or, for `__proto__`, as
the installed prototype. -/
def stores (o : JsObj α) (n : String) : Prop :=
  (getEntries o.entries n).isSome = true ∨ (n = "__proto__" ∧ o.proto.isSome = true)

end JsObj

/-! ## Handles of the collaborators -/

/-- What a failed operation carries: an exception raised by the language itself, or the
rejection reason handed over by a collaborator. -/
inductive Err where
  | typeError (msg : String)
  | rejected (reason : String)
  deriving DecidableEq, Repr

/-- The four process wrappers required at the top of the file. -/
inductive Kind where
  | baseNode
  | wallet
  | mergeMiningProxy
  | miningNode
  deriving DecidableEq, Repr

/-- The second constructor argument of a process wrapper. -/
inductive Options where
  | undefined
  | null
  | emptyObject
  | given (repr : String)
  deriving DecidableEq, Repr

/-- A process wrapper object: the allocation number stands for object identity, the
other fields are the constructor arguments.  Such an object is truthy. -/
structure Proc where
  ident : Nat
  kind : Kind
  name : String
  options : Options
  logFile : String
  deriving DecidableEq, Repr

/-- The object returned by one call of `createGrpcClient()`. -/
structure Client where
  ident : Nat
  owner : Proc
  deriving DecidableEq, Repr

/-- An address argument as a step hands it over: nothing, one address, or an array of
addresses. -/
inductive PeerArg where
  | undefined
  | str (address : String)
  | arr (addresses : List String)
  deriving DecidableEq, Repr

/-- The value of the `block` property of a block artifact. -/
inductive Payload where
  | undefined
  | data (repr : String)
  deriving DecidableEq, Repr

/-- A block artifact as the mining calls return it: an object whose payload sits in
its `block` property. -/
structure SavedBlock where
  block : Payload
  deriving DecidableEq, Repr

/-- An output as a step hands it to `addOutput`: an object. -/
structure Output where
  repr : String
  deriving DecidableEq, Repr

/-- A callback forwarded to a client, named by a label. -/
abbrev Hook := String

/-- An object the world stored in one of its registries. -/
inductive Stored where
  | proc (p : Proc)
  | client (c : Client)
  | block (b : SavedBlock)
  deriving DecidableEq, Repr

/-- The calls made on collaborators and on the console, in the order they are made. -/
inductive Event where
  | construct (p : Proc)
  | setPeerSeeds (p : Proc) (seeds : List PeerArg)
  | startNew (p : Proc)
  | start (p : Proc)
  | stop (p : Proc)
  | createGrpcClient (p : Proc) (c : Client)
  | createClient (p : Proc)
  | clientSubmitBlock (c : Client) (payload : Payload)
  | mineBlockWithoutWallet (c : Client) (beforeSubmit : Hook) (weight : Nat) (onError : Hook)
  | proxyMineBlock (p : Proc) (weight : Nat)
  | foreign (holder : Stored) (key : String) (method : String)
  | action (c : Val Client) (name : String)
  | log (msg : String) (err : Option Err)
  deriving DecidableEq, Repr

/-- What one call of the action handed to `forEachClientAsync` does: it throws before
returning, or it returns a promise that settles with the given outcome. -/
inductive Called where
  | threw (e : Err)
  | promise (outcome : Except Err Unit)

/-- What is known of the objects of one kind once one of them has been installed as a
prototype. -/
structure Shape (α : Type) where
  /-- Whether the object carries the property, of its own or from its class. -/
  has : α → String → Bool
  /-- Whether the value of that property is truthy. -/
  truthy : α → String → Bool
  /-- The keys a `for ... in` over the object visits, in order. -/
  enumerable : α → List String

/-- What the collaborators answer.  An asynchronous method is given by the outcome its
promise settles with, which may depend on everything that happened before. -/
structure Env where
  startNew : List Event → Proc → Except Err Unit
  start : List Event → Proc → Except Err Unit
  stop : List Event → Proc → Except Err Unit
  peerAddress : Proc → String
  clientSubmitBlock : List Event → Client → Payload → Except Err Unit
  mineBlockWithoutWallet : List Event → Client → Hook → Nat → Hook → Except Err Unit
  proxyMineBlock : List Event → Proc → Nat → Except Err Unit
  procShape : Shape Proc
  clientShape : Shape Client
  blockShape : Shape SavedBlock
  /-- The outcome of calling `method` on the value of the property `key` of a stored
  object, and of what the statement does with the result. -/
  foreign : List Event → Stored → String → String → Except Err Unit
  /-- The outcome of calling `peerAddress()` on the value of the property `key` of a
  stored object. -/
  foreignPeerAddress : Stored → String → Except Err String
  /-- The outcome of reading `.block` from the value of the property `key` of a stored
  object. -/
  foreignBlock : Stored → String → Except Err Payload
  /-- Among the rejections of the promises handed to `Promise.all`, the position of
  the one that comes first in time. -/
  settlesFirst : List Err → Nat

/-! ## The world -/

/-- The three optional log-configuration paths of the world parameters. -/
structure Parameters where
  logFilePathBaseNode : Option String
  logFilePathProxy : Option String
  logFilePathWallet : Option String

/-- The expression `p || d` on an optional string: an absent or empty string is falsy. -/
def orDefault (p : Option String) (d : String) : String :=
  match p with
  | none => d
  | some v => if v = "" then d else v

/-- Whether a value read from a registry is truthy: `undefined` is not, objects and
functions are, and for the value of a property of a stored object the shape tells. -/
def truthy {α : Type} (shape : Shape α) : Val α → Bool
  | Val.undefined => false
  | Val.handle _ => true
  | Val.objectPrototype => true
  | Val.builtin _ => true
  | Val.inherited holder key => shape.truthy holder key

/-- The expression `a || b` on values read from registries. -/
def jsOr {α : Type} (shape : Shape α) (a b : Val α) : Val α :=
  if truthy shape a then a else b

/-- The fields of `CustomWorld` that its methods and the `After` hook read or write.
(`headers`, `transactions`, `peers`, `lastResult`, `resultStack`, `tipHeight` and
`testrun` are only touched by step definitions.) -/
structure World where
  seeds : JsObj Proc
  nodes : JsObj Proc
  proxies : JsObj Proc
  miners : JsObj Proc
  wallets : JsObj Proc
  clients : JsObj Client
  outputs : JsObj Output
  blocks : JsObj SavedBlock
  transactionsMap : List (String × List String)
  logFilePathBaseNode : String
  logFilePathProxy : String
  logFilePathWallet : String
  deriving DecidableEq, Repr

/-- The world together with the allocation counter and the trace of calls so far. -/
structure Sys where
  world : World
  nextId : Nat
  trace : List Event
  deriving DecidableEq, Repr

/-- The outcome of a method: how it settled and the state it left. -/
abbrev Outcome (α : Type) := Except Err α × Sys

/-- Record a call. -/
def Sys.emit (s : Sys) (e : Event) : Sys := { s with trace := s.trace ++ [e] }

/-- Count an allocation. -/
def Sys.alloc (s : Sys) : Sys := { s with nextId := s.nextId + 1 }

/-- The constructor of `CustomWorld`. -/
def fresh (parameters : Parameters) : Sys :=
  { world :=
      { seeds := JsObj.empty
        nodes := JsObj.empty
        proxies := JsObj.empty
        miners := JsObj.empty
        wallets := JsObj.empty
        clients := JsObj.empty
        outputs := JsObj.empty
        blocks := JsObj.empty
        transactionsMap := []
        logFilePathBaseNode := orDefault parameters.logFilePathBaseNode "./log4rs/base_node.yml"
        logFilePathProxy := orDefault parameters.logFilePathProxy "./log4rs/proxy.yml"
        logFilePathWallet := orDefault parameters.logFilePathWallet "./log4rs/wallet.yml" }
    nextId := 0
    trace := [] }

/-- The message of the exception raised by a property access on `undefined`. -/
def undefinedAccess (property : String) : Err :=
  Err.typeError ("Cannot read property '" ++ property ++ "' of undefined")

/-- The message of the exception raised by calling a property that is `undefined`. -/
def notAFunction (method : String) : Err :=
  Err.typeError ("." ++ method ++ " is not a function")

/-- A method call `v.method(...)` on a value read from a registry, awaited where the
source awaits it.  On a stored object the call `onHandle` is made; `undefined` has no
properties; `Object.prototype` and its functions have no property of that name; on the
value of a property of a stored object the environment tells. -/
def invoke {α : Type} (env : Env) (stored : α → Stored) (s : Sys) (v : Val α)
    (method : String) (onHandle : α → Outcome Unit) : Outcome Unit :=
  match v with
  | Val.undefined => (.error (undefinedAccess method), s)
  | Val.handle h => onHandle h
  | Val.objectPrototype => (.error (notAFunction method), s)
  | Val.builtin _ => (.error (notAFunction method), s)
  | Val.inherited holder key =>
    (env.foreign s.trace (stored holder) key method,
      s.emit (Event.foreign (stored holder) key method))

/-- The method `createSeedNode`. -/
def createSeedNode (env : Env) (s : Sys) (name : String) : Outcome Unit :=
  let proc : Proc :=
    ⟨s.nextId, Kind.baseNode, "seed-" ++ name, Options.null, s.world.logFilePathBaseNode⟩
  let s1 := s.alloc.emit (Event.construct proc)
  let s2 := s1.emit (Event.startNew proc)
  match env.startNew s1.trace proc with
  | .error e => (.error e, s2)
  | .ok _ =>
    let c : Client := ⟨s2.nextId, proc⟩
    let s3 := s2.alloc.emit (Event.createGrpcClient proc c)
    (.ok (), { s3 with world := { s3.world with
                seeds := s3.world.seeds.set name proc
                clients := s3.world.clients.set name c } })

/-- The expression `v.peerAddress()` on a value read from `this.seeds`. -/
def peerAddressOf (env : Env) (v : Val Proc) : Except Err String :=
  match v with
  | Val.undefined => .error (undefinedAccess "peerAddress")
  | Val.handle p => .ok (env.peerAddress p)
  | Val.objectPrototype => .error (notAFunction "peerAddress")
  | Val.builtin _ => .error (notAFunction "peerAddress")
  | Val.inherited holder key => env.foreignPeerAddress (Stored.proc holder) key

/-- The loop of `seedAddresses` over the visited keys. -/
def collectAddresses (env : Env) (seeds : JsObj Proc) : List String → Except Err (List String)
  | [] => .ok []
  | property :: rest =>
    match peerAddressOf env (seeds.get env.procShape.has property) with
    | .error e => .error e
    | .ok address =>
      match collectAddresses env seeds rest with
      | .error e => .error e
      | .ok res => .ok (address :: res)

/-- The method `seedAddresses`. -/
def seedAddresses (env : Env) (s : Sys) : Except Err (List String) :=
  collectAddresses env s.world.seeds (s.world.seeds.forIn env.procShape.enumerable)

/-- The method `createNode`: the node is created, neither added nor started. -/
def createNode (s : Sys) (name : String) (options : Options) : Proc × Sys :=
  let node : Proc := ⟨s.nextId, Kind.baseNode, name, options, s.world.logFilePathBaseNode⟩
  (node, s.alloc.emit (Event.construct node))

/-- The method `addNode`. -/
def addNode (s : Sys) (name : String) (process : Proc) : Sys :=
  let c : Client := ⟨s.nextId, process⟩
  let s1 := s.alloc.emit (Event.createGrpcClient process c)
  { s1 with world := { s1.world with
      nodes := s1.world.nodes.set name process
      clients := s1.world.clients.set name c } }

/-- The argument `createAndAddNode` hands to `setPeerSeeds`: an array is passed as it
is, anything else is wrapped into a one-element array. -/
def nodePeerSeeds (addresses : PeerArg) : List PeerArg :=
  match addresses with
  | PeerArg.arr as => as.map PeerArg.str
  | other => [other]

/-- The method `createAndAddNode`. -/
def createAndAddNode (env : Env) (s : Sys) (name : String) (addresses : PeerArg) :
    Outcome Unit :=
  let (node, s1) := createNode s name Options.undefined
  let s2 := s1.emit (Event.setPeerSeeds node (nodePeerSeeds addresses))
  let s3 := s2.emit (Event.startNew node)
  match env.startNew s2.trace node with
  | .error e => (.error e, s3)
  | .ok _ => (.ok (), addNode s3 name node)

/-- The method `addMiningNode`. -/
def addMiningNode (s : Sys) (name : String) (process : Proc) : Sys :=
  { s with world := { s.world with miners := s.world.miners.set name process } }

/-- The method `addProxy`. -/
def addProxy (s : Sys) (name : String) (process : Proc) : Sys :=
  { s with world := { s.world with proxies := s.world.proxies.set name process } }

/-- The method `addWallet`. -/
def addWallet (s : Sys) (name : String) (process : Proc) : Sys :=
  { s with world := { s.world with wallets := s.world.wallets.set name process } }

/-- The method `createAndAddWallet`: the argument is always wrapped into a one-element
array before it goes to `setPeerSeeds`. -/
def createAndAddWallet (env : Env) (s : Sys) (name : String) (nodeAddresses : PeerArg) :
    Outcome Unit :=
  let wallet : Proc :=
    ⟨s.nextId, Kind.wallet, name, Options.emptyObject, s.world.logFilePathWallet⟩
  let s1 := s.alloc.emit (Event.construct wallet)
  let s2 := s1.emit (Event.setPeerSeeds wallet [nodeAddresses])
  let s3 := s2.emit (Event.startNew wallet)
  match env.startNew s2.trace wallet with
  | .error e => (.error e, s3)
  | .ok _ => (.ok (), addWallet s3 name wallet)

/-- The method `addOutput`. -/
def addOutput (s : Sys) (name : String) (output : Output) : Sys :=
  { s with world := { s.world with outputs := s.world.outputs.set name output } }

/-- The method `getClient`. -/
def getClient (env : Env) (s : Sys) (name : String) : Val Client :=
  s.world.clients.get env.clientShape.has name

/-- The method `mineBlock`. -/
def mineBlock (env : Env) (s : Sys) (name : String) (weight : Nat)
    (beforeSubmit onError : Hook) : Outcome Unit :=
  invoke env Stored.client s (s.world.clients.get env.clientShape.has name)
    "mineBlockWithoutWallet"
    (fun c =>
      (env.mineBlockWithoutWallet s.trace c beforeSubmit weight onError,
        s.emit (Event.mineBlockWithoutWallet c beforeSubmit weight onError)))

/-- The method `mergeMineBlock`. -/
def mergeMineBlock (env : Env) (s : Sys) (name : String) (weight : Nat) : Outcome Unit :=
  invoke env Stored.proc s (s.world.proxies.get env.procShape.has name) "createClient"
    (fun p =>
      let s1 := s.emit (Event.createClient p)
      (env.proxyMineBlock s1.trace p weight, s1.emit (Event.proxyMineBlock p weight)))

/-- The method `saveBlock`. -/
def saveBlock (s : Sys) (name : String) (block : SavedBlock) : Sys :=
  { s with world := { s.world with blocks := s.world.blocks.set name block } }

/-- The expression `v.block` on a value read from `this.blocks`. -/
def blockOf (env : Env) (v : Val SavedBlock) : Except Err Payload :=
  match v with
  | Val.undefined => .error (undefinedAccess "block")
  | Val.handle b => .ok b.block
  | Val.objectPrototype => .ok Payload.undefined
  | Val.builtin _ => .ok Payload.undefined
  | Val.inherited holder key => env.foreignBlock (Stored.block holder) key

/-- The method `submitBlock`.  The callee `this.clients[nodeName].submitBlock` and the
argument `this.blocks[blockName].block` are evaluated before the call is made; the
`catch` handler is attached to the promise the call returns. -/
def submitBlock (env : Env) (s : Sys) (blockName nodeName : String) : Outcome Unit :=
  match s.world.clients.get env.clientShape.has nodeName with
  | Val.undefined => (.error (undefinedAccess "submitBlock"), s)
  | client =>
    match blockOf env (s.world.blocks.get env.blockShape.has blockName) with
    | .error e => (.error e, s)
    | .ok payload =>
      invoke env Stored.client s client "submitBlock"
        (fun c =>
          let s1 := s.emit (Event.clientSubmitBlock c payload)
          match env.clientSubmitBlock s.trace c payload with
          | .ok _ => (.ok (), s1)
          | .error err => (.ok (), s1.emit (Event.log "submit block erro" (some err))))

/-- The method `getNode`. -/
def getNode (env : Env) (s : Sys) (name : String) : Val Proc :=
  jsOr env.procShape (s.world.nodes.get env.procShape.has name)
    (s.world.seeds.get env.procShape.has name)

/-- The method `getMiningNode`. -/
def getMiningNode (env : Env) (s : Sys) (name : String) : Val Proc :=
  s.world.miners.get env.procShape.has name

/-- The method `getWallet`. -/
def getWallet (env : Env) (s : Sys) (name : String) : Val Proc :=
  s.world.wallets.get env.procShape.has name

/-- The method `getProxy`. -/
def getProxy (env : Env) (s : Sys) (name : String) : Val Proc :=
  s.world.proxies.get env.procShape.has name

/-- The method `getOrCreateWallet`. -/
def getOrCreateWallet (env : Env) (s : Sys) (name : String) : Outcome (Val Proc) :=
  if truthy env.procShape (getWallet env s name) then (.ok (getWallet env s name), s)
  else
    match seedAddresses env s with
    | .error e => (.error e, s)
    | .ok addresses =>
      match createAndAddWallet env s name (PeerArg.arr addresses) with
      | (.error e, s1) => (.error e, s1)
      | (.ok _, s1) => (.ok (getWallet env s1 name), s1)

/-- The loops of `forEachClientAsync`: the action is called on each key in turn and
every call is recorded; a call that throws ends the method, a returned promise is
kept. -/
def callAll (env : Env) (f : List Event → Val Client → String → Called) :
    List String → Sys → Except Err (List (Except Err Unit)) × Sys
  | [], s => (.ok [], s)
  | property :: rest, s =>
    let c := getClient env s property
    let s1 := s.emit (Event.action c property)
    match f s.trace c property with
    | Called.threw e => (.error e, s1)
    | Called.promise r =>
      match callAll env f rest s1 with
      | (.error e, s2) => (.error e, s2)
      | (.ok rs, s2) => (.ok (r :: rs), s2)

/-- The rejections among settled promises, in array order. -/
def rejections : List (Except Err Unit) → List Err
  | [] => []
  | .ok _ :: rest => rejections rest
  | .error e :: rest => e :: rejections rest

/-- The promise `Promise.all(promises)`: fulfilled when every promise is, rejected
otherwise, with the rejection that comes first in time. -/
def promiseAll (env : Env) (promises : List (Except Err Unit)) : Except Err Unit :=
  match rejections promises with
  | [] => .ok ()
  | e :: es => .error ((e :: es).getD (env.settlesFirst (e :: es)) e)

/-- The method `forEachClientAsync`.  The action registers nothing while the loops
run. -/
def forEachClientAsync (env : Env) (s : Sys)
    (f : List Event → Val Client → String → Called) : Outcome Unit :=
  match callAll env f (s.world.seeds.forIn env.procShape.enumerable) s with
  | (.error e, s1) => (.error e, s1)
  | (.ok ps1, s1) =>
    match callAll env f (s1.world.nodes.forIn env.procShape.enumerable) s1 with
    | (.error e, s2) => (.error e, s2)
    | (.ok ps2, s2) => (promiseAll env (ps1 ++ ps2), s2)

/-- The method `stopNode`. -/
def stopNode (env : Env) (s : Sys) (name : String) : Outcome Unit :=
  invoke env Stored.proc s
    (jsOr env.procShape (s.world.seeds.get env.procShape.has name)
      (s.world.nodes.get env.procShape.has name))
    "stop" (fun node => (env.stop s.trace node, s.emit (Event.stop node)))

/-- The method `startNode`. -/
def startNode (env : Env) (s : Sys) (name : String) : Outcome Unit :=
  invoke env Stored.proc s
    (jsOr env.procShape (s.world.seeds.get env.procShape.has name)
      (s.world.nodes.get env.procShape.has name))
    "start" (fun node => (env.start s.trace node, s.emit (Event.start node)))

/-- The method `has` of a `Map`. -/
def mapHas (m : List (String × List String)) (k : String) : Bool :=
  match m with
  | [] => false
  | (k', _) :: rest => if k' = k then true else mapHas rest k

/-- The method `get` of a `Map`. -/
def mapGet (m : List (String × List String)) (k : String) : Option (List String) :=
  match m with
  | [] => none
  | (k', v) :: rest => if k' = k then some v else mapGet rest k

/-- The method `set` of a `Map`. -/
def mapSet (m : List (String × List String)) (k : String) (v : List String) :
    List (String × List String) :=
  match m with
  | [] => [(k, v)]
  | (k', v') :: rest => if k' = k then (k', v) :: rest else (k', v') :: mapSet rest k v

/-- The method `addTransaction`.  The array held by the map is extended in place. -/
def addTransaction (s : Sys) (pubKey txId : String) : Outcome Unit :=
  let m1 :=
    if !mapHas s.world.transactionsMap pubKey then mapSet s.world.transactionsMap pubKey []
    else s.world.transactionsMap
  match mapGet m1 pubKey with
  | none => (.error (undefinedAccess "push"), { s with world := { s.world with transactionsMap := m1 } })
  | some txs =>
    (.ok (), { s with world := { s.world with transactionsMap := mapSet m1 pubKey (txs ++ [txId]) } })

/-! ## The `After` hook -/

/-- A loop `for (const key in o) { await body(key) }`: each body is awaited before the
next starts, and a rejection leaves the loop. -/
def forEachAwait (body : Sys → String → Outcome Unit) : List String → Sys → Outcome Unit
  | [], s => (.ok (), s)
  | key :: rest, s =>
    match body s key with
    | (.error e, s1) => (.error e, s1)
    | (.ok _, s1) => forEachAwait body rest s1

/-- The statement `await registry[key].stop()`. -/
def stopIn (env : Env) (registry : World → JsObj Proc) (s : Sys) (key : String) :
    Outcome Unit :=
  invoke env Stored.proc s ((registry s.world).get env.procShape.has key) "stop"
    (fun p => (env.stop s.trace p, s.emit (Event.stop p)))

/-- The hook `After`. -/
def After (env : Env) (s : Sys) : Outcome Unit :=
  let s0 := s.emit (Event.log "Stopping nodes" none)
  match forEachAwait (stopNode env) (s0.world.seeds.forIn env.procShape.enumerable) s0 with
  | (.error e, s1) => (.error e, s1)
  | (.ok _, s1) =>
    match forEachAwait (stopNode env) (s1.world.nodes.forIn env.procShape.enumerable) s1 with
    | (.error e, s2) => (.error e, s2)
    | (.ok _, s2) =>
      match forEachAwait (stopIn env World.proxies)
          (s2.world.proxies.forIn env.procShape.enumerable) s2 with
      | (.error e, s3) => (.error e, s3)
      | (.ok _, s3) =>
        match forEachAwait (stopIn env World.wallets)
            (s3.world.wallets.forIn env.procShape.enumerable) s3 with
        | (.error e, s4) => (.error e, s4)
        | (.ok _, s4) =>
          forEachAwait (stopIn env World.miners)
            (s4.world.miners.forIn env.procShape.enumerable) s4

/-! ## Scenarios: sequences of calls on a world -/

/-- A call of one of the world's methods. -/
inductive Op where
  | createSeedNode (name : String)
  | createNode (name : String) (options : Options)
  | createAndAddNode (name : String) (addresses : PeerArg)
  | addNode (name : String) (process : Proc)
  | addMiningNode (name : String) (process : Proc)
  | addProxy (name : String) (process : Proc)
  | createAndAddWallet (name : String) (nodeAddresses : PeerArg)
  | addWallet (name : String) (process : Proc)
  | addOutput (name : String) (output : Output)
  | mineBlock (name : String) (weight : Nat) (beforeSubmit onError : Hook)
  | mergeMineBlock (name : String) (weight : Nat)
  | saveBlock (name : String) (block : SavedBlock)
  | submitBlock (blockName nodeName : String)
  | getOrCreateWallet (name : String)
  | forEachClientAsync (f : List Event → Val Client → String → Called)
  | stopNode (name : String)
  | startNode (name : String)
  | addTransaction (pubKey txId : String)

/-- The state a call leaves, whether it settled well or not. -/
def step (env : Env) (s : Sys) : Op → Sys
  | Op.createSeedNode name => (createSeedNode env s name).2
  | Op.createNode name options => (createNode s name options).2
  | Op.createAndAddNode name addresses => (createAndAddNode env s name addresses).2
  | Op.addNode name process => addNode s name process
  | Op.addMiningNode name process => addMiningNode s name process
  | Op.addProxy name process => addProxy s name process
  | Op.createAndAddWallet name nodeAddresses => (createAndAddWallet env s name nodeAddresses).2
  | Op.addWallet name process => addWallet s name process
  | Op.addOutput name output => addOutput s name output
  | Op.mineBlock name weight beforeSubmit onError =>
    (mineBlock env s name weight beforeSubmit onError).2
  | Op.mergeMineBlock name weight => (mergeMineBlock env s name weight).2
  | Op.saveBlock name block => saveBlock s name block
  | Op.submitBlock blockName nodeName => (submitBlock env s blockName nodeName).2
  | Op.getOrCreateWallet name => (getOrCreateWallet env s name).2
  | Op.forEachClientAsync f => (forEachClientAsync env s f).2
  | Op.stopNode name => (stopNode env s name).2
  | Op.startNode name => (startNode env s name).2
  | Op.addTransaction pubKey txId => (addTransaction s pubKey txId).2

/-- The state after a sequence of calls. -/
def run (env : Env) (s : Sys) (ops : List Op) : Sys := ops.foldl (step env) s

/-- The state after a sequence of `addTransaction(key, id)` calls. -/
def addTransactions (s : Sys) (calls : List (String × String)) : Sys :=
  calls.foldl (fun st call => (addTransaction st call.1 call.2).2) s

/-- The ids passed together with `key`, in call order. -/
def idsFor (key : String) (calls : List (String × String)) : List String :=
  (calls.filter (fun call => call.1 = key)).map Prod.snd

/-- What each call of the action does, in call order, when every call is made: a call
sees the trace of the calls made before it. -/
def settled (f : List Event → Val Client → String → Called)
    (client : String → Val Client) : List Event → List String → List Called
  | _, [] => []
  | history, name :: rest =>
    f history (client name) name ::
      settled f client (history ++ [Event.action (client name) name]) rest

/-- Every name under which a seed or a node is stored has a client stored under it. -/
def ClientsCover (env : Env) (w : World) : Prop :=
  ∀ n, ((∃ p, w.seeds.get env.procShape.has n = Val.handle p) ∨
      (∃ p, w.nodes.get env.procShape.has n = Val.handle p)) →
    ∃ c, w.clients.get env.clientShape.has n = Val.handle c

/-- The methods the world calls on a process wrapper. -/
def processMethods : List String :=
  ["init", "compile", "startNew", "start", "stop", "setPeerSeeds", "createGrpcClient",
    "peerAddress", "createClient"]

/-- The shape of the objects in the calm environment: an object carries the
`constructor` of its class, the given methods and the given fields, of which only the
fields are enumerable; a value read out of a stored object is truthy. -/
def calmShape (α : Type) (methods fields : List String) : Shape α :=
  { has := fun _ k => k == "constructor" || methods.contains k || fields.contains k
    truthy := fun _ _ => true
    enumerable := fun _ => fields }

/-- An environment in which every collaborator call succeeds and a process advertises
its own name as address; a value read out of a stored object has none of the methods
the world calls. -/
def calmEnv : Env :=
  { startNew := fun _ _ => .ok ()
    start := fun _ _ => .ok ()
    stop := fun _ _ => .ok ()
    peerAddress := fun p => p.name
    clientSubmitBlock := fun _ _ _ => .ok ()
    mineBlockWithoutWallet := fun _ _ _ _ _ => .ok ()
    proxyMineBlock := fun _ _ _ => .ok ()
    procShape := calmShape Proc processMethods ["name"]
    clientShape := calmShape Client ["submitBlock", "mineBlockWithoutWallet"] []
    blockShape := calmShape SavedBlock [] ["block"]
    foreign := fun _ _ _ method => .error (notAFunction method)
    foreignPeerAddress := fun _ _ => .error (notAFunction "peerAddress")
    foreignBlock := fun _ _ => .ok Payload.undefined
    settlesFirst := fun _ => 0 }

/-- The world parameters with nothing set. -/
def noParameters : Parameters := ⟨none, none, none⟩

/-- An environment in which no process comes up. -/
def failingStartEnv : Env :=
  { calmEnv with startNew := fun _ _ => .error (Err.rejected "process did not start") }

/-- A node process a step may hand to `addNode`. -/
def nodeA : Proc := ⟨100, Kind.baseNode, "nodeA", Options.undefined, "./log4rs/base_node.yml"⟩

/-- A second process handle, distinct from `nodeA`. -/
def nodeB : Proc := ⟨101, Kind.baseNode, "nodeB", Options.undefined, "./log4rs/base_node.yml"⟩

/-- A wallet process a step may hand to `addWallet`. -/
def walletA : Proc := ⟨102, Kind.wallet, "walletA", Options.emptyObject, "./log4rs/wallet.yml"⟩

/-- An environment in which every block submission is rejected. -/
def rejectingEnv : Env :=
  { calmEnv with clientSubmitBlock := fun _ _ _ => .error (Err.rejected "orphan block") }

/-- An action that throws as soon as it is called. -/
def throwingAction : List Event → Val Client → String → Called :=
  fun _ _ _ => Called.threw (Err.rejected "assertion failed")

/-- An action whose promise is fulfilled. -/
def calmAction : List Event → Val Client → String → Called :=
  fun _ _ _ => Called.promise (.ok ())

/-! ## Reading and writing dictionaries -/

namespace JsObj

variable {α : Type}

theorem getEntries_setEntries_same (l : List (String × α)) (k : String) (v : α) :
    getEntries (setEntries l k v) k = some v := by
  induction l with
  | nil => simp [setEntries, getEntries]
  | cons kv rest ih =>
    obtain ⟨k', v'⟩ := kv
    by_cases h : k' = k
    · simp [setEntries, getEntries, h]
    · simp [setEntries, getEntries, h, ih]

theorem getEntries_setEntries_other (l : List (String × α)) (k k2 : String) (v : α)
    (h : k2 ≠ k) : getEntries (setEntries l k v) k2 = getEntries l k2 := by
  induction l with
  | nil =>
    have h2 : ¬ k = k2 := fun e => h e.symm
    simp [setEntries, getEntries, h2]
  | cons kv rest ih =>
    obtain ⟨k', v'⟩ := kv
    by_cases hk : k' = k
    · subst hk
      have h2 : ¬ k' = k2 := fun e => h e.symm
      simp [setEntries, getEntries, h2]
    · by_cases hk2 : k' = k2
      · subst hk2
        simp [setEntries, getEntries, hk]
      · simp [setEntries, getEntries, hk, hk2, ih]

/-- A write, then a read of the same key: the object just written, whatever the key. -/
theorem get_set_same (has : α → String → Bool) (o : JsObj α) (k : String) (v : α) :
    (o.set k v).get has k = Val.handle v := by
  unfold set
  cases h : getEntries o.entries k with
  | some old => simp [get, getEntries_setEntries_same]
  | none =>
    by_cases hk : k = "__proto__"
    · subst hk
      simp [get, h]
    · simp [hk, get, getEntries_setEntries_same]

/-- A write under a key other than `__proto__` leaves the reads of all other keys as
they were. -/
theorem get_set_other (has : α → String → Bool) (o : JsObj α) (k k2 : String) (v : α)
    (h : k2 ≠ k) (hk : k ≠ "__proto__") : (o.set k v).get has k2 = o.get has k2 := by
  unfold set
  cases hg : getEntries o.entries k with
  | some old => simp [get, getEntries_setEntries_other _ _ _ _ h]
  | none => simp [hk, get, getEntries_setEntries_other _ _ _ _ h]

end JsObj

/-! ## Registries: write, then read -/

/-- C6, amended: for a name other than `__proto__`, in each of the categories node,
wallet, mining node and proxy, the lookup of `name` after `add(name, p)` answers `p`,
after a further `add(name, q)` it answers `q`, and the lookup of any other name answers
what it answered before. -/
theorem add_then_get_last_write_wins (env : Env) (s : Sys) (name other : String) (p q : Proc)
    (hname : name ≠ "__proto__") (h : other ≠ name) :
    (getNode env (addNode s name p) name = Val.handle p ∧
      getNode env (addNode (addNode s name p) name q) name = Val.handle q ∧
      getNode env (addNode s name p) other = getNode env s other) ∧
    (getWallet env (addWallet s name p) name = Val.handle p ∧
      getWallet env (addWallet (addWallet s name p) name q) name = Val.handle q ∧
      getWallet env (addWallet s name p) other = getWallet env s other) ∧
    (getMiningNode env (addMiningNode s name p) name = Val.handle p ∧
      getMiningNode env (addMiningNode (addMiningNode s name p) name q) name = Val.handle q ∧
      getMiningNode env (addMiningNode s name p) other = getMiningNode env s other) ∧
    (getProxy env (addProxy s name p) name = Val.handle p ∧
      getProxy env (addProxy (addProxy s name p) name q) name = Val.handle q ∧
      getProxy env (addProxy s name p) other = getProxy env s other) := by
  refine ⟨⟨?_, ?_, ?_⟩, ⟨?_, ?_, ?_⟩, ⟨?_, ?_, ?_⟩, ⟨?_, ?_, ?_⟩⟩
  · simp [getNode, addNode, Sys.emit, Sys.alloc, JsObj.get_set_same, jsOr, truthy]
  · simp [getNode, addNode, Sys.emit, Sys.alloc, JsObj.get_set_same, jsOr, truthy]
  · simp [getNode, addNode, Sys.emit, Sys.alloc, JsObj.get_set_other _ _ _ _ _ h hname]
  · simp [getWallet, addWallet, JsObj.get_set_same]
  · simp [getWallet, addWallet, JsObj.get_set_same]
  · simp [getWallet, addWallet, JsObj.get_set_other _ _ _ _ _ h hname]
  · simp [getMiningNode, addMiningNode, JsObj.get_set_same]
  · simp [getMiningNode, addMiningNode, JsObj.get_set_same]
  · simp [getMiningNode, addMiningNode, JsObj.get_set_other _ _ _ _ _ h hname]
  · simp [getProxy, addProxy, JsObj.get_set_same]
  · simp [getProxy, addProxy, JsObj.get_set_same]
  · simp [getProxy, addProxy, JsObj.get_set_other _ _ _ _ _ h hname]

/-- The write-then-read law on a world that already holds a node named `b`; the name
written is `constructor`, which `Object.prototype` carries too. -/
theorem add_then_get_last_write_wins_witness :
    "constructor" ≠ "__proto__" ∧ "b" ≠ "constructor" ∧
    getNode calmEnv (addNode (addNode (fresh noParameters) "b" nodeB) "constructor" nodeA)
      "constructor" = Val.handle nodeA ∧
    getNode calmEnv (addNode (addNode (fresh noParameters) "b" nodeB) "constructor" nodeA) "b"
      = getNode calmEnv (addNode (fresh noParameters) "b" nodeB) "b" ∧
    getWallet calmEnv
        (addWallet (addWallet (addNode (fresh noParameters) "b" nodeB) "constructor" walletA)
          "constructor" nodeB) "constructor" = Val.handle nodeB :=
  ⟨by decide, by decide,
    (add_then_get_last_write_wins calmEnv (addNode (fresh noParameters) "b" nodeB)
      "constructor" "b" nodeA nodeB (by decide) (by decide)).1.1,
    (add_then_get_last_write_wins calmEnv (addNode (fresh noParameters) "b" nodeB)
      "constructor" "b" nodeA nodeB (by decide) (by decide)).1.2.2,
    (add_then_get_last_write_wins calmEnv (addNode (fresh noParameters) "b" nodeB)
      "constructor" "b" walletA nodeB (by decide) (by decide)).2.1.2.1⟩

/-- C6 as stated fails: `addWallet("__proto__", walletA)` installs the wallet as
prototype of `this.wallets`, and the lookup of the other name `stop`, `undefined`
before, now answers the `stop` method of that wallet. -/
theorem add_under_proto_changes_other_lookups :
    "stop" ≠ "__proto__" ∧
    getWallet calmEnv (fresh noParameters) "stop" = Val.undefined ∧
    getWallet calmEnv (addWallet (fresh noParameters) "__proto__" walletA) "stop" =
      Val.inherited walletA "stop" ∧
    getWallet calmEnv (addWallet (fresh noParameters) "__proto__" walletA) "stop" ≠
      getWallet calmEnv (fresh noParameters) "stop" := by
  decide

/-! ## Block submission -/

/-- C10: with a block saved under `blockName` and a client registered under `nodeName`,
`submitBlock` calls that client's `submitBlock` once, with the payload of the saved
block; it resolves normally whether the call succeeds or fails, a failure being logged,
and the world and the allocation counter are left as they were. -/
theorem submitBlock_swallows_failure (env : Env) (s : Sys) (blockName nodeName : String)
    (c : Client) (b : SavedBlock) (hc : getClient env s nodeName = Val.handle c)
    (hb : s.world.blocks.get env.blockShape.has blockName = Val.handle b) :
    (submitBlock env s blockName nodeName).1 = .ok () ∧
    (submitBlock env s blockName nodeName).2.world = s.world ∧
    (submitBlock env s blockName nodeName).2.nextId = s.nextId ∧
    (submitBlock env s blockName nodeName).2.trace =
      s.trace ++ Event.clientSubmitBlock c b.block ::
        (match env.clientSubmitBlock s.trace c b.block with
          | .ok _ => []
          | .error err => [Event.log "submit block erro" (some err)]) := by
  unfold getClient at hc
  unfold submitBlock
  simp only [hc, hb, blockOf, invoke]
  cases hr : env.clientSubmitBlock s.trace c b.block <;> simp [Sys.emit]

/-- A rejected submission of a saved block: the call resolves, the rejection is logged. -/
theorem submitBlock_swallows_failure_witness :
    (submitBlock rejectingEnv
        (saveBlock (addNode (fresh noParameters) "nodeA" nodeA) "block1"
          ⟨Payload.data "payload1"⟩)
        "block1" "nodeA").1 = .ok () ∧
    (submitBlock rejectingEnv
        (saveBlock (addNode (fresh noParameters) "nodeA" nodeA) "block1"
          ⟨Payload.data "payload1"⟩)
        "block1" "nodeA").2.trace =
      [Event.createGrpcClient nodeA ⟨0, nodeA⟩,
        Event.clientSubmitBlock ⟨0, nodeA⟩ (Payload.data "payload1"),
        Event.log "submit block erro" (some (Err.rejected "orphan block"))] := by
  have h := submitBlock_swallows_failure rejectingEnv
    (saveBlock (addNode (fresh noParameters) "nodeA" nodeA) "block1" ⟨Payload.data "payload1"⟩)
    "block1" "nodeA" ⟨0, nodeA⟩ ⟨Payload.data "payload1"⟩ (by decide) (by decide)
  exact ⟨h.1, h.2.2.2⟩

/-- C1, amended: with a client registered under `nodeName` and nothing found under
`blockName` (no block saved under it, and no property of that name inherited by
`this.blocks`), `submitBlock` is rejected with the type error of reading `block` from
`undefined`; the client is not called, nothing is logged, the state is as before. -/
theorem submitBlock_missing_block (env : Env) (s : Sys) (blockName nodeName : String)
    (c : Client) (hc : getClient env s nodeName = Val.handle c)
    (hb : s.world.blocks.get env.blockShape.has blockName = Val.undefined) :
    submitBlock env s blockName nodeName = (.error (undefinedAccess "block"), s) := by
  unfold getClient at hc
  unfold submitBlock
  simp only [hc, hb, blockOf]

/-- The scenario `submitBlock("missingBlock", "nodeA")` on a world with node `nodeA`. -/
theorem submitBlock_missing_block_witness :
    getClient calmEnv (addNode (fresh noParameters) "nodeA" nodeA) "nodeA" =
      Val.handle ⟨0, nodeA⟩ ∧
    (addNode (fresh noParameters) "nodeA" nodeA).world.blocks.get calmEnv.blockShape.has
      "missingBlock" = Val.undefined ∧
    (submitBlock calmEnv (addNode (fresh noParameters) "nodeA" nodeA) "missingBlock" "nodeA").2 =
      addNode (fresh noParameters) "nodeA" nodeA :=
  ⟨by decide, by decide,
    congrArg Prod.snd
      (submitBlock_missing_block calmEnv (addNode (fresh noParameters) "nodeA" nodeA)
        "missingBlock" "nodeA" ⟨0, nodeA⟩ (by decide) (by decide))⟩

/-- C1 as stated fails: `submitBlock("missingBlock", "nodeA")` does not resolve, and the
trace holds no log entry. -/
theorem submitBlock_missing_block_rejects :
    (submitBlock calmEnv (addNode (fresh noParameters) "nodeA" nodeA) "missingBlock"
        "nodeA").1 = .error (Err.typeError "Cannot read property 'block' of undefined") ∧
    (submitBlock calmEnv (addNode (fresh noParameters) "nodeA" nodeA) "missingBlock"
        "nodeA").2.trace = [Event.createGrpcClient nodeA ⟨0, nodeA⟩] :=
  ⟨rfl, rfl⟩

/-! ## The transaction index -/

theorem mapGet_mapSet_same (m : List (String × List String)) (k : String) (v : List String) :
    mapGet (mapSet m k v) k = some v := by
  induction m with
  | nil => simp [mapSet, mapGet]
  | cons kv rest ih =>
    obtain ⟨k', v'⟩ := kv
    by_cases h : k' = k
    · simp [mapSet, mapGet, h]
    · simp [mapSet, mapGet, h, ih]

theorem mapGet_mapSet_other (m : List (String × List String)) (k k2 : String)
    (v : List String) (h : k2 ≠ k) : mapGet (mapSet m k v) k2 = mapGet m k2 := by
  induction m with
  | nil =>
    have h2 : ¬ k = k2 := fun e => h e.symm
    simp [mapSet, mapGet, h2]
  | cons kv rest ih =>
    obtain ⟨k', v'⟩ := kv
    by_cases hk : k' = k
    · subst hk
      have h2 : ¬ k' = k2 := fun e => h e.symm
      simp [mapSet, mapGet, h2]
    · by_cases hk2 : k' = k2
      · subst hk2
        simp [mapSet, mapGet, hk]
      · simp [mapSet, mapGet, hk, hk2, ih]

theorem mapGet_of_mapHas_false (m : List (String × List String)) (k : String)
    (h : mapHas m k = false) : mapGet m k = none := by
  induction m with
  | nil => simp [mapGet]
  | cons kv rest ih =>
    obtain ⟨k', v'⟩ := kv
    by_cases hk : k' = k
    · simp [mapHas, hk] at h
    · simp [mapHas, hk] at h
      simp [mapGet, hk, ih h]

theorem mapGet_of_mapHas_true (m : List (String × List String)) (k : String)
    (h : mapHas m k = true) : ∃ txs, mapGet m k = some txs := by
  induction m with
  | nil => simp [mapHas] at h
  | cons kv rest ih =>
    obtain ⟨k', v'⟩ := kv
    by_cases hk : k' = k
    · exact ⟨v', by simp [mapGet, hk]⟩
    · simp [mapHas, hk] at h
      obtain ⟨txs, ht⟩ := ih h
      exact ⟨txs, by simp [mapGet, hk, ht]⟩

/-- One call of `addTransaction`: it succeeds, the list of its key grows by the id at
the end, every other key keeps its list. -/
theorem addTransaction_step (s : Sys) (k id : String) :
    (addTransaction s k id).1 = .ok () ∧
    ∀ key, mapGet (addTransaction s k id).2.world.transactionsMap key =
      if key = k then some ((mapGet s.world.transactionsMap k).getD [] ++ [id])
      else mapGet s.world.transactionsMap key := by
  cases hh : mapHas s.world.transactionsMap k with
  | false =>
    have hg := mapGet_of_mapHas_false _ _ hh
    refine ⟨?_, ?_⟩
    · simp [addTransaction, hh, mapGet_mapSet_same]
    · intro key
      by_cases hk : key = k
      · subst hk
        simp [addTransaction, hh, mapGet_mapSet_same, hg]
      · simp [addTransaction, hh, mapGet_mapSet_same, mapGet_mapSet_other _ _ _ _ hk, hk]
  | true =>
    obtain ⟨txs, hg⟩ := mapGet_of_mapHas_true _ _ hh
    refine ⟨?_, ?_⟩
    · simp [addTransaction, hh, hg]
    · intro key
      by_cases hk : key = k
      · subst hk
        simp [addTransaction, hh, mapGet_mapSet_same, hg]
      · simp [addTransaction, hh, hg, mapGet_mapSet_other _ _ _ _ hk, hk]

theorem idsFor_cons_same (key id : String) (rest : List (String × String)) :
    idsFor key ((key, id) :: rest) = id :: idsFor key rest := by
  simp [idsFor]

theorem idsFor_cons_other (key k id : String) (rest : List (String × String))
    (h : key ≠ k) : idsFor key ((k, id) :: rest) = idsFor key rest := by
  have h2 : ¬ k = key := fun e => h e.symm
  simp [idsFor, h2]

/-- A sequence of `addTransaction` calls from any state: each key's list is its former
list followed by the ids passed with that key. -/
theorem addTransactions_get (calls : List (String × String)) (s : Sys) (key : String) :
    mapGet (addTransactions s calls).world.transactionsMap key =
      if idsFor key calls = [] then mapGet s.world.transactionsMap key
      else some ((mapGet s.world.transactionsMap key).getD [] ++ idsFor key calls) := by
  induction calls generalizing s with
  | nil => simp [addTransactions, idsFor]
  | cons call rest ih =>
    obtain ⟨k, id⟩ := call
    have hstep := (addTransaction_step s k id).2 key
    have hfold : addTransactions s ((k, id) :: rest) =
        addTransactions (addTransaction s k id).2 rest := rfl
    rw [hfold, ih, hstep]
    by_cases hk : key = k
    · subst hk
      rw [idsFor_cons_same]
      by_cases hr : idsFor key rest = []
      · simp [hr]
      · simp [hr]
    · rw [idsFor_cons_other _ _ _ _ hk]
      simp [hk]

/-- C7: after any sequence of `addTransaction(key, id)` calls on a fresh world, the
list stored under a key is exactly the ids passed with that key, in call order (a key
never used has no list); from any state a call succeeds, appends its id to the list of
its own key and leaves the lists of all other keys unchanged, so a list is never
replaced or shortened. -/
theorem addTransaction_accumulates (parameters : Parameters) (calls : List (String × String))
    (s : Sys) (k id : String) :
    (∀ key, mapGet (addTransactions (fresh parameters) calls).world.transactionsMap key =
      if idsFor key calls = [] then none else some (idsFor key calls)) ∧
    (addTransaction s k id).1 = .ok () ∧
    (∀ key, mapGet (addTransaction s k id).2.world.transactionsMap key =
      if key = k then some ((mapGet s.world.transactionsMap k).getD [] ++ [id])
      else mapGet s.world.transactionsMap key) := by
  refine ⟨?_, (addTransaction_step s k id).1, (addTransaction_step s k id).2⟩
  intro key
  rw [addTransactions_get]
  simp [fresh, mapGet]

/-! ## Nodes, seeds and their clients -/

namespace JsObj

variable {α : Type}

/-- A read yields a stored object exactly under the names an object is stored under. -/
theorem get_handle_iff (has : α → String → Bool) (o : JsObj α) (n : String) :
    (∃ v, o.get has n = Val.handle v) ↔ o.stores n := by
  unfold get stores
  cases hg : getEntries o.entries n with
  | some v => simp
  | none =>
    by_cases hn : n = "__proto__"
    · cases hp : o.proto <;> simp [hn]
    · cases hp : o.proto with
      | none => simp [hn, fromObjectPrototype]; split <;> simp
      | some p =>
        simp only [hn, if_false]
        by_cases hh : has p n = true
        · simp [hh]
        · simp [hh, fromObjectPrototype]; split <;> simp

/-- After a write, an object is stored under the written name and under the names that
held one before. -/
theorem stores_set (o : JsObj α) (k n : String) (v : α) :
    (o.set k v).stores n ↔ n = k ∨ o.stores n := by
  unfold set stores
  cases hg : getEntries o.entries k with
  | some old =>
    by_cases hn : n = k
    · subst hn
      simp [getEntries_setEntries_same]
    · simp [getEntries_setEntries_other _ _ _ _ hn, hn]
  | none =>
    by_cases hk : k = "__proto__"
    · subst hk
      simp only [if_true, Option.isSome_some, and_true]
      constructor
      · rintro (h | h)
        · exact Or.inr (Or.inl h)
        · exact Or.inl h
      · rintro (h | h | h)
        · exact Or.inr h
        · exact Or.inl h
        · exact Or.inr h.1
    · simp only [hk, if_false]
      by_cases hn : n = k
      · subst hn
        simp [getEntries_setEntries_same]
      · simp [getEntries_setEntries_other _ _ _ _ hn, hn]

end JsObj

theorem callAll_world (env : Env) (f : List Event → Val Client → String → Called)
    (keys : List String) (s : Sys) : (callAll env f keys s).2.world = s.world := by
  induction keys generalizing s with
  | nil => rfl
  | cons key rest ih =>
    simp only [callAll]
    split
    · rfl
    · have h := ih (s.emit (Event.action (getClient env s key) key))
      split
      · rename_i heq
        rw [heq] at h
        exact h
      · rename_i heq
        rw [heq] at h
        exact h

theorem forEachClientAsync_world (env : Env) (s : Sys)
    (f : List Event → Val Client → String → Called) :
    (forEachClientAsync env s f).2.world = s.world := by
  have h1 := callAll_world env f (s.world.seeds.forIn env.procShape.enumerable) s
  unfold forEachClientAsync
  split
  · rename_i heq
    rw [heq] at h1
    exact h1
  · rename_i ps1 s1 heq
    rw [heq] at h1
    have h2 := callAll_world env f (s1.world.nodes.forIn env.procShape.enumerable) s1
    split
    · rename_i heq2
      rw [heq2] at h2
      exact h2.trans h1
    · rename_i heq2
      rw [heq2] at h2
      exact h2.trans h1

theorem invoke_world {α : Type} (env : Env) (stored : α → Stored) (s : Sys) (v : Val α)
    (method : String) (onHandle : α → Outcome Unit)
    (h : ∀ a, (onHandle a).2.world = s.world) :
    (invoke env stored s v method onHandle).2.world = s.world := by
  cases v with
  | undefined => rfl
  | handle a => exact h a
  | objectPrototype => rfl
  | builtin name => rfl
  | inherited holder key => rfl

theorem createSeedNode_ok (env : Env) (s : Sys) (name : String)
    (h : (createSeedNode env s name).1 = .ok ()) :
    (createSeedNode env s name).2 =
      { world := { s.world with
          seeds := s.world.seeds.set name
            ⟨s.nextId, Kind.baseNode, "seed-" ++ name, Options.null, s.world.logFilePathBaseNode⟩
          clients := s.world.clients.set name
            ⟨s.nextId + 1,
              ⟨s.nextId, Kind.baseNode, "seed-" ++ name, Options.null,
                s.world.logFilePathBaseNode⟩⟩ }
        nextId := s.nextId + 2
        trace := s.trace ++
          [Event.construct
              ⟨s.nextId, Kind.baseNode, "seed-" ++ name, Options.null, s.world.logFilePathBaseNode⟩,
            Event.startNew
              ⟨s.nextId, Kind.baseNode, "seed-" ++ name, Options.null, s.world.logFilePathBaseNode⟩,
            Event.createGrpcClient
              ⟨s.nextId, Kind.baseNode, "seed-" ++ name, Options.null, s.world.logFilePathBaseNode⟩
              ⟨s.nextId + 1,
                ⟨s.nextId, Kind.baseNode, "seed-" ++ name, Options.null,
                  s.world.logFilePathBaseNode⟩⟩] } := by
  unfold createSeedNode at h ⊢
  simp only [Sys.emit, Sys.alloc] at h ⊢
  split at h
  · simp at h
  · rename_i hs
    simp only [hs]
    simp

theorem createSeedNode_error_world (env : Env) (s : Sys) (name : String) (e : Err)
    (h : (createSeedNode env s name).1 = .error e) :
    (createSeedNode env s name).2.world = s.world := by
  unfold createSeedNode at h ⊢
  simp only [Sys.emit, Sys.alloc] at h ⊢
  split at h
  · rename_i hs
    simp only [hs]
  · simp at h

theorem addNode_world (s : Sys) (name : String) (process : Proc) :
    (addNode s name process).world =
      { s.world with
        nodes := s.world.nodes.set name process
        clients := s.world.clients.set name ⟨s.nextId, process⟩ } := by
  simp [addNode, Sys.emit, Sys.alloc]

theorem createAndAddWallet_registries (env : Env) (s : Sys) (name : String)
    (nodeAddresses : PeerArg) :
    (createAndAddWallet env s name nodeAddresses).2.world.seeds = s.world.seeds ∧
    (createAndAddWallet env s name nodeAddresses).2.world.nodes = s.world.nodes ∧
    (createAndAddWallet env s name nodeAddresses).2.world.clients = s.world.clients := by
  unfold createAndAddWallet
  simp only [Sys.emit, Sys.alloc]
  split <;> simp [addWallet]

theorem getOrCreateWallet_registries (env : Env) (s : Sys) (name : String) :
    (getOrCreateWallet env s name).2.world.seeds = s.world.seeds ∧
    (getOrCreateWallet env s name).2.world.nodes = s.world.nodes ∧
    (getOrCreateWallet env s name).2.world.clients = s.world.clients := by
  unfold getOrCreateWallet
  split
  · simp
  · split
    · simp
    · rename_i addresses _
      have h := createAndAddWallet_registries env s name (PeerArg.arr addresses)
      split
      · rename_i heq
        rw [heq] at h
        exact h
      · rename_i heq
        rw [heq] at h
        exact h

/-- What a call may do to the registries of seeds, nodes and clients: nothing, or one
write of a seed with its client, or one write of a node with its client. -/
theorem step_registries (env : Env) (s : Sys) (op : Op) :
    ((step env s op).world.seeds = s.world.seeds ∧ (step env s op).world.nodes = s.world.nodes ∧
      (step env s op).world.clients = s.world.clients) ∨
    (∃ name p c, (step env s op).world.seeds = s.world.seeds.set name p ∧
      (step env s op).world.nodes = s.world.nodes ∧
      (step env s op).world.clients = s.world.clients.set name c) ∨
    (∃ name p c, (step env s op).world.seeds = s.world.seeds ∧
      (step env s op).world.nodes = s.world.nodes.set name p ∧
      (step env s op).world.clients = s.world.clients.set name c) := by
  cases op with
  | createSeedNode name =>
    simp only [step]
    cases hr : (createSeedNode env s name).1 with
    | error e =>
      rw [createSeedNode_error_world env s name e hr]
      exact Or.inl ⟨rfl, rfl, rfl⟩
    | ok u =>
      rw [createSeedNode_ok env s name hr]
      exact Or.inr (Or.inl ⟨name, _, _, rfl, rfl, rfl⟩)
  | createNode name options => exact Or.inl ⟨rfl, rfl, rfl⟩
  | createAndAddNode name addresses =>
    simp only [step, createAndAddNode, createNode, Sys.emit, Sys.alloc]
    split
    · exact Or.inl ⟨rfl, rfl, rfl⟩
    · rw [addNode_world]
      exact Or.inr (Or.inr ⟨name, _, _, rfl, rfl, rfl⟩)
  | addNode name process =>
    simp only [step]
    rw [addNode_world]
    exact Or.inr (Or.inr ⟨name, _, _, rfl, rfl, rfl⟩)
  | addMiningNode name process => exact Or.inl ⟨rfl, rfl, rfl⟩
  | addProxy name process => exact Or.inl ⟨rfl, rfl, rfl⟩
  | createAndAddWallet name nodeAddresses =>
    exact Or.inl (createAndAddWallet_registries env s name nodeAddresses)
  | addWallet name process => exact Or.inl ⟨rfl, rfl, rfl⟩
  | addOutput name output => exact Or.inl ⟨rfl, rfl, rfl⟩
  | mineBlock name weight beforeSubmit onError =>
    simp only [step, mineBlock]
    rw [invoke_world env _ s _ _ _ (fun _ => rfl)]
    exact Or.inl ⟨rfl, rfl, rfl⟩
  | mergeMineBlock name weight =>
    simp only [step, mergeMineBlock]
    rw [invoke_world env _ s _ _ _ (fun _ => rfl)]
    exact Or.inl ⟨rfl, rfl, rfl⟩
  | saveBlock name block => exact Or.inl ⟨rfl, rfl, rfl⟩
  | submitBlock blockName nodeName =>
    have hw : (submitBlock env s blockName nodeName).2.world = s.world := by
      unfold submitBlock
      split
      · rfl
      · split
        · rfl
        · apply invoke_world
          intro c
          dsimp only
          split <;> rfl
    simp only [step]
    rw [hw]
    exact Or.inl ⟨rfl, rfl, rfl⟩
  | getOrCreateWallet name => exact Or.inl (getOrCreateWallet_registries env s name)
  | forEachClientAsync f =>
    simp only [step]
    rw [forEachClientAsync_world]
    exact Or.inl ⟨rfl, rfl, rfl⟩
  | stopNode name =>
    simp only [step, stopNode]
    rw [invoke_world env _ s _ _ _ (fun _ => rfl)]
    exact Or.inl ⟨rfl, rfl, rfl⟩
  | startNode name =>
    simp only [step, startNode]
    rw [invoke_world env _ s _ _ _ (fun _ => rfl)]
    exact Or.inl ⟨rfl, rfl, rfl⟩
  | addTransaction pubKey txId =>
    simp only [step, addTransaction]
    split <;> exact Or.inl ⟨rfl, rfl, rfl⟩

theorem clientsCover_iff (env : Env) (w : World) :
    ClientsCover env w ↔
      ∀ n, w.seeds.stores n ∨ w.nodes.stores n → w.clients.stores n := by
  unfold ClientsCover
  constructor
  · intro h n hn
    rw [← JsObj.get_handle_iff env.clientShape.has]
    apply h n
    rw [JsObj.get_handle_iff, JsObj.get_handle_iff]
    exact hn
  · intro h n hn
    rw [JsObj.get_handle_iff]
    apply h n
    rw [JsObj.get_handle_iff, JsObj.get_handle_iff] at hn
    exact hn

/-- Every call of a method of the world keeps each seed and node covered by a client. -/
theorem step_clientsCover (env : Env) (s : Sys) (op : Op) (h : ClientsCover env s.world) :
    ClientsCover env (step env s op).world := by
  rw [clientsCover_iff] at h ⊢
  rcases step_registries env s op with ⟨h1, h2, h3⟩ | ⟨name, p, c, h1, h2, h3⟩ |
    ⟨name, p, c, h1, h2, h3⟩
  · rw [h1, h2, h3]
    exact h
  · rw [h1, h2, h3]
    intro n hn
    rw [JsObj.stores_set] at hn ⊢
    rcases hn with (hn | hn) | hn
    · exact Or.inl hn
    · exact Or.inr (h n (Or.inl hn))
    · exact Or.inr (h n (Or.inr hn))
  · rw [h1, h2, h3]
    intro n hn
    rw [JsObj.stores_set] at hn ⊢
    rcases hn with hn | hn | hn
    · exact Or.inr (h n (Or.inl hn))
    · exact Or.inl hn
    · exact Or.inr (h n (Or.inr hn))

theorem run_clientsCover (env : Env) (ops : List Op) (s : Sys) (h : ClientsCover env s.world) :
    ClientsCover env (run env s ops).world := by
  induction ops generalizing s with
  | nil => exact h
  | cons op rest ih => exact ih (step env s op) (step_clientsCover env s op h)

theorem fresh_clientsCover (env : Env) (parameters : Parameters) :
    ClientsCover env (fresh parameters).world := by
  rw [clientsCover_iff]
  intro n hn
  simp [fresh, JsObj.empty, JsObj.stores, JsObj.getEntries] at hn

/-- C4: in every state reached from a fresh world by calls of the world's methods,
each name registered in `seeds` or in `nodes` has a client under the same name; right
after `addNode(name, process)`, and right after a `createSeedNode(name)` that
succeeded, `getClient(name)` is the client returned by the one `createGrpcClient()`
call the method made, and that call was made on the process just registered. -/
theorem seed_and_node_have_their_client (env : Env) (parameters : Parameters) (ops : List Op)
    (name : String) (process : Proc) :
    ClientsCover env (run env (fresh parameters) ops).world ∧
    (∃ c, (addNode (run env (fresh parameters) ops) name process).trace =
          (run env (fresh parameters) ops).trace ++ [Event.createGrpcClient process c] ∧
        getClient env (addNode (run env (fresh parameters) ops) name process) name =
          Val.handle c ∧
        (addNode (run env (fresh parameters) ops) name process).world.nodes.get
          env.procShape.has name = Val.handle process) ∧
    ((createSeedNode env (run env (fresh parameters) ops) name).1 = .ok () →
      ∃ proc c, (createSeedNode env (run env (fresh parameters) ops) name).2.trace =
          (run env (fresh parameters) ops).trace ++
            [Event.construct proc, Event.startNew proc, Event.createGrpcClient proc c] ∧
        getClient env (createSeedNode env (run env (fresh parameters) ops) name).2 name =
          Val.handle c ∧
        (createSeedNode env (run env (fresh parameters) ops) name).2.world.seeds.get
          env.procShape.has name = Val.handle proc) := by
  refine ⟨run_clientsCover env ops _ (fresh_clientsCover env parameters), ?_, ?_⟩
  · refine ⟨⟨(run env (fresh parameters) ops).nextId, process⟩, ?_, ?_, ?_⟩
    · simp [addNode, Sys.emit, Sys.alloc]
    · simp [getClient, addNode_world, JsObj.get_set_same]
    · simp [addNode_world, JsObj.get_set_same]
  · intro hstart
    rw [createSeedNode_ok env _ name hstart]
    exact ⟨_, _, rfl, by simp [getClient, JsObj.get_set_same], by simp [JsObj.get_set_same]⟩

/-- A scenario with a seed, a node created from an address, a block and a node stored
under `__proto__`. -/
theorem seed_and_node_have_their_client_witness :
    ClientsCover calmEnv
      (run calmEnv (fresh noParameters)
        [Op.createSeedNode "s1", Op.createAndAddNode "n1" (PeerArg.str "seed-s1"),
          Op.saveBlock "b1" ⟨Payload.data "payload1"⟩, Op.addNode "__proto__" nodeA]).world ∧
    getClient calmEnv
        (run calmEnv (fresh noParameters)
          [Op.createSeedNode "s1", Op.createAndAddNode "n1" (PeerArg.str "seed-s1"),
            Op.saveBlock "b1" ⟨Payload.data "payload1"⟩, Op.addNode "__proto__" nodeA])
        "__proto__" = Val.handle ⟨4, nodeA⟩ :=
  ⟨(seed_and_node_have_their_client calmEnv noParameters
      [Op.createSeedNode "s1", Op.createAndAddNode "n1" (PeerArg.str "seed-s1"),
        Op.saveBlock "b1" ⟨Payload.data "payload1"⟩, Op.addNode "__proto__" nodeA] "s2" nodeA).1,
    by decide⟩

/-! ## Seed addresses -/

namespace JsObj

variable {α : Type}

theorem setEntries_names_of_mem (l : List (String × α)) (k : String) (v : α)
    (h : k ∈ l.map Prod.fst) : (setEntries l k v).map Prod.fst = l.map Prod.fst := by
  induction l with
  | nil => simp at h
  | cons kv rest ih =>
    obtain ⟨k', v'⟩ := kv
    by_cases hk : k' = k
    · simp [setEntries, hk]
    · have hmem : k ∈ rest.map Prod.fst := by
        simp only [List.map_cons, List.mem_cons] at h
        rcases h with h | h
        · exact absurd h.symm hk
        · exact h
      simp [setEntries, hk, ih hmem]

theorem setEntries_names_of_not_mem (l : List (String × α)) (k : String) (v : α)
    (h : k ∉ l.map Prod.fst) : (setEntries l k v).map Prod.fst = l.map Prod.fst ++ [k] := by
  induction l with
  | nil => simp [setEntries]
  | cons kv rest ih =>
    obtain ⟨k', v'⟩ := kv
    simp only [List.map_cons, List.mem_cons, not_or] at h
    have hk : ¬ k' = k := fun e => h.1 e.symm
    simp [setEntries, hk, ih h.2]

theorem getEntries_isSome_of_mem (l : List (String × α)) (k : String)
    (h : k ∈ l.map Prod.fst) : (getEntries l k).isSome = true := by
  induction l with
  | nil => simp at h
  | cons kv rest ih =>
    obtain ⟨k', v'⟩ := kv
    by_cases hk : k' = k
    · simp [getEntries, hk]
    · have hmem : k ∈ rest.map Prod.fst := by
        simp only [List.map_cons, List.mem_cons] at h
        rcases h with h | h
        · exact absurd h.symm hk
        · exact h
      simp [getEntries, hk, ih hmem]

theorem indexKeys_eq_nil (l : List (String × α))
    (h : ∀ k ∈ l.map Prod.fst, arrayIndex k = none) : indexKeys l = [] := by
  induction l with
  | nil => rfl
  | cons kv rest ih =>
    obtain ⟨k', v'⟩ := kv
    have hk : arrayIndex k' = none := h k' (by simp)
    have hrest : ∀ k ∈ rest.map Prod.fst, arrayIndex k = none :=
      fun k hm => h k (by simp only [List.map_cons, List.mem_cons]; exact Or.inr hm)
    simp [indexKeys, hk, ih hrest]

theorem stringKeys_eq_names (l : List (String × α))
    (h : ∀ k ∈ l.map Prod.fst, arrayIndex k = none) : stringKeys l = l.map Prod.fst := by
  induction l with
  | nil => rfl
  | cons kv rest ih =>
    obtain ⟨k', v'⟩ := kv
    have hk : arrayIndex k' = none := h k' (by simp)
    have hrest : ∀ k ∈ rest.map Prod.fst, arrayIndex k = none :=
      fun k hm => h k (by simp only [List.map_cons, List.mem_cons]; exact Or.inr hm)
    have ih2 := ih hrest
    simp only [stringKeys] at ih2 ⊢
    simp [List.filter, hk, ih2]

theorem getEntries_none_of_not_mem (l : List (String × α)) (k : String)
    (h : k ∉ l.map Prod.fst) : getEntries l k = none := by
  induction l with
  | nil => rfl
  | cons kv rest ih =>
    obtain ⟨k', v'⟩ := kv
    simp only [List.map_cons, List.mem_cons, not_or] at h
    have hk : ¬ k' = k := fun e => h.1 e.symm
    simp [getEntries, hk, ih h.2]

/-- Without array-index keys, the own keys are visited in creation order. -/
theorem ownKeys_eq_ownNames (o : JsObj α) (h : ∀ k ∈ o.ownNames, arrayIndex k = none) :
    o.ownKeys = o.ownNames := by
  simp [ownKeys, ownNames, indexKeys_eq_nil o.entries h, stringKeys_eq_names o.entries h]

/-- A write under a new name other than `__proto__` creates the last own property and
leaves the prototype alone. -/
theorem set_of_not_mem (o : JsObj α) (k : String) (v : α) (h : k ∉ o.ownNames)
    (hk : k ≠ "__proto__") :
    (o.set k v).ownNames = o.ownNames ++ [k] ∧ (o.set k v).proto = o.proto := by
  unfold set
  rw [getEntries_none_of_not_mem o.entries k h]
  simp only [hk, if_false]
  exact ⟨setEntries_names_of_not_mem o.entries k v h, trivial⟩

end JsObj

theorem collectAddresses_of_own (env : Env) (seeds : JsObj Proc) (keys : List String)
    (h : ∀ n ∈ keys, (JsObj.getEntries seeds.entries n).isSome = true) :
    keys.map (fun n => seeds.get env.procShape.has n) =
        (keys.filterMap (JsObj.getEntries seeds.entries)).map Val.handle ∧
      collectAddresses env seeds keys =
        .ok ((keys.filterMap (JsObj.getEntries seeds.entries)).map env.peerAddress) := by
  induction keys with
  | nil => exact ⟨rfl, rfl⟩
  | cons key rest ih =>
    have hkey := h key (by simp)
    obtain ⟨v, hv⟩ := Option.isSome_iff_exists.mp hkey
    obtain ⟨ih1, ih2⟩ := ih (fun n hn => h n (by simp [hn]))
    have hget : seeds.get env.procShape.has key = Val.handle v := by simp [JsObj.get, hv]
    refine ⟨?_, ?_⟩
    · simp [List.filterMap_cons, hv, hget, ih1]
    · simp [collectAddresses, hget, peerAddressOf, ih2, List.filterMap_cons, hv]

/-- Seeds created one after the other under new names other than `__proto__` are
appended to `this.seeds`, and no prototype is installed. -/
theorem run_createSeedNode_names (env : Env) (hstart : ∀ h p, env.startNew h p = .ok ())
    (names : List String) (s : Sys) (hnodup : names.Nodup)
    (hnew : ∀ n ∈ names, n ∉ s.world.seeds.ownNames) (hproto : "__proto__" ∉ names) :
    (run env s (names.map Op.createSeedNode)).world.seeds.ownNames =
        s.world.seeds.ownNames ++ names ∧
      (run env s (names.map Op.createSeedNode)).world.seeds.proto = s.world.seeds.proto := by
  induction names generalizing s with
  | nil => simp [run]
  | cons name rest ih =>
    have hok : (createSeedNode env s name).1 = .ok () := by
      unfold createSeedNode
      simp [hstart]
    have hstate := createSeedNode_ok env s name hok
    have hhere : name ∉ s.world.seeds.ownNames := hnew name (by simp)
    have hname : name ≠ "__proto__" := fun e => hproto (by simp [e])
    have hset := JsObj.set_of_not_mem s.world.seeds name
      ⟨s.nextId, Kind.baseNode, "seed-" ++ name, Options.null, s.world.logFilePathBaseNode⟩
      hhere hname
    have hnames : (createSeedNode env s name).2.world.seeds.ownNames =
        s.world.seeds.ownNames ++ [name] := by
      rw [hstate]
      exact hset.1
    have hp : (createSeedNode env s name).2.world.seeds.proto = s.world.seeds.proto := by
      rw [hstate]
      exact hset.2
    have hnodup2 := List.nodup_cons.mp hnodup
    have hnew2 : ∀ n ∈ rest, n ∉ (createSeedNode env s name).2.world.seeds.ownNames := by
      intro n hn
      rw [hnames]
      simp only [List.mem_append, List.mem_singleton, not_or]
      refine ⟨hnew n (by simp [hn]), ?_⟩
      intro e
      subst e
      exact hnodup2.1 hn
    have hproto2 : "__proto__" ∉ rest := fun hm => hproto (by simp [hm])
    have hrun : run env s ((name :: rest).map Op.createSeedNode) =
        run env (createSeedNode env s name).2 (rest.map Op.createSeedNode) := rfl
    obtain ⟨ih1, ih2⟩ := ih _ hnodup2.2 hnew2 hproto2
    rw [hrun, ih1, ih2, hnames, hp]
    simp

/-- C9, amended: seeds are created on a fresh world under distinct names, none of
which is an array index or `__proto__`, every start succeeding; then `seedAddresses()`
returns, name by name in registration order, the `peerAddress()` of the seed
registered under that name, one entry per seed. -/
theorem seedAddresses_in_registration_order (env : Env) (parameters : Parameters)
    (names : List String) (hstart : ∀ h p, env.startNew h p = .ok ())
    (hnodup : names.Nodup) (hnames : ∀ n ∈ names, arrayIndex n = none)
    (hproto : "__proto__" ∉ names) :
    ∃ procs : List Proc,
      names.map (fun n =>
          (run env (fresh parameters) (names.map Op.createSeedNode)).world.seeds.get
            env.procShape.has n) = procs.map Val.handle ∧
      seedAddresses env (run env (fresh parameters) (names.map Op.createSeedNode)) =
        .ok (procs.map env.peerAddress) := by
  obtain ⟨hown, hp⟩ := run_createSeedNode_names env hstart names (fresh parameters) hnodup
    (by intro n _; simp [fresh, JsObj.empty, JsObj.ownNames]) hproto
  have hown2 : (run env (fresh parameters) (names.map Op.createSeedNode)).world.seeds.ownNames
      = names := by
    rw [hown]
    simp [fresh, JsObj.empty, JsObj.ownNames]
  have hp2 : (run env (fresh parameters) (names.map Op.createSeedNode)).world.seeds.proto
      = none := by
    rw [hp]
    rfl
  have hforIn : (run env (fresh parameters) (names.map Op.createSeedNode)).world.seeds.forIn
      env.procShape.enumerable = names := by
    unfold JsObj.forIn
    rw [hp2, JsObj.ownKeys_eq_ownNames _ (by rw [hown2]; exact hnames), hown2]
    simp
  have hall : ∀ n ∈ names, (JsObj.getEntries
      (run env (fresh parameters) (names.map Op.createSeedNode)).world.seeds.entries n).isSome
        = true := by
    intro n hn
    apply JsObj.getEntries_isSome_of_mem
    have hmem :
        n ∈ (run env (fresh parameters) (names.map Op.createSeedNode)).world.seeds.ownNames := by
      rw [hown2]
      exact hn
    exact hmem
  obtain ⟨h1, h2⟩ := collectAddresses_of_own env _ names hall
  refine ⟨_, h1, ?_⟩
  unfold seedAddresses
  rw [hforIn]
  exact h2

/-- Seeds `A` then `B`: the addresses come out as `[address(A), address(B)]`. -/
theorem seedAddresses_in_registration_order_witness :
    ["A", "B"].Nodup ∧ "__proto__" ∉ ["A", "B"] ∧
    ∃ procs : List Proc,
      ["A", "B"].map (fun n =>
          (run calmEnv (fresh noParameters) (["A", "B"].map Op.createSeedNode)).world.seeds.get
            calmEnv.procShape.has n) = procs.map Val.handle ∧
      seedAddresses calmEnv
          (run calmEnv (fresh noParameters) (["A", "B"].map Op.createSeedNode)) =
        .ok (procs.map calmEnv.peerAddress) :=
  ⟨by decide, by decide,
    seedAddresses_in_registration_order calmEnv noParameters ["A", "B"]
      (fun _ _ => rfl) (by decide) (by decide) (by decide)⟩

/-- C9 as stated fails: seeds `"2"` then `"1"` are listed as `[address("1"),
address("2")]`, not in registration order; and after seeds `"A"` then `"__proto__"`
the loop visits `A` and then the `name` field of the process installed as prototype,
on which `peerAddress` is not a function. -/
theorem seedAddresses_index_names_not_in_registration_order :
    seedAddresses calmEnv
        (run calmEnv (fresh noParameters) [Op.createSeedNode "2", Op.createSeedNode "1"]) =
      .ok ["seed-1", "seed-2"] ∧
    (run calmEnv (fresh noParameters)
        [Op.createSeedNode "2", Op.createSeedNode "1"]).world.seeds.entries =
      [("2", ⟨0, Kind.baseNode, "seed-2", Options.null, "./log4rs/base_node.yml"⟩),
        ("1", ⟨2, Kind.baseNode, "seed-1", Options.null, "./log4rs/base_node.yml"⟩)] ∧
    (run calmEnv (fresh noParameters)
        [Op.createSeedNode "A", Op.createSeedNode "__proto__"]).world.seeds.forIn
        calmEnv.procShape.enumerable = ["A", "name"] ∧
    seedAddresses calmEnv
        (run calmEnv (fresh noParameters) [Op.createSeedNode "A", Op.createSeedNode "__proto__"]) =
      .error (Err.typeError ".peerAddress is not a function") := by
  refine ⟨rfl, by decide, by decide, rfl⟩

/-! ## Wallets created on first use -/

/-- C3: with seeds `A` and `B` registered and no wallet named `w`,
`getOrCreateWallet("w")` hands `setPeerSeeds` a one-element array whose element is the
whole array of seed addresses, where `createAndAddNode` hands over the addresses
themselves. -/
theorem getOrCreateWallet_nests_seed_addresses :
    seedAddresses calmEnv
        (run calmEnv (fresh noParameters) [Op.createSeedNode "A", Op.createSeedNode "B"]) =
      .ok ["seed-A", "seed-B"] ∧
    (getOrCreateWallet calmEnv
        (run calmEnv (fresh noParameters) [Op.createSeedNode "A", Op.createSeedNode "B"])
        "w").2.trace =
      (run calmEnv (fresh noParameters) [Op.createSeedNode "A", Op.createSeedNode "B"]).trace ++
        [Event.construct ⟨4, Kind.wallet, "w", Options.emptyObject, "./log4rs/wallet.yml"⟩,
          Event.setPeerSeeds ⟨4, Kind.wallet, "w", Options.emptyObject, "./log4rs/wallet.yml"⟩
            [PeerArg.arr ["seed-A", "seed-B"]],
          Event.startNew ⟨4, Kind.wallet, "w", Options.emptyObject, "./log4rs/wallet.yml"⟩] ∧
    [PeerArg.arr ["seed-A", "seed-B"]] ≠ [PeerArg.str "seed-A", PeerArg.str "seed-B"] ∧
    nodePeerSeeds (PeerArg.arr ["seed-A", "seed-B"]) =
      [PeerArg.str "seed-A", PeerArg.str "seed-B"] := by
  refine ⟨rfl, by decide, by decide, by decide⟩

/-- C8 as stated fails: on a fresh world, when the wallet process does not start,
`getOrCreateWallet("w")` is rejected and no wallet is registered. -/
theorem getOrCreateWallet_fails_when_start_fails :
    (getOrCreateWallet failingStartEnv (fresh noParameters) "w").1 =
      .error (Err.rejected "process did not start") ∧
    getWallet failingStartEnv (getOrCreateWallet failingStartEnv (fresh noParameters) "w").2 "w"
      = Val.undefined :=
  ⟨rfl, rfl⟩

theorem getOrCreateWallet_of_truthy (env : Env) (s : Sys) (name : String)
    (h : truthy env.procShape (getWallet env s name) = true) :
    getOrCreateWallet env s name = (.ok (getWallet env s name), s) := by
  have h2 : truthy env.procShape (s.world.wallets.get env.procShape.has name) = true := h
  simp [getOrCreateWallet, getWallet, h2]

theorem getOrCreateWallet_of_seedAddresses_error (env : Env) (s : Sys) (name : String)
    (e : Err) (h : truthy env.procShape (getWallet env s name) = false)
    (ha : seedAddresses env s = .error e) :
    getOrCreateWallet env s name = (.error e, s) := by
  have h2 : truthy env.procShape (s.world.wallets.get env.procShape.has name) = false := h
  simp [getOrCreateWallet, getWallet, h2, ha]

theorem getOrCreateWallet_of_start_ok (env : Env) (s : Sys) (name : String)
    (addresses : List String) (h : truthy env.procShape (getWallet env s name) = false)
    (ha : seedAddresses env s = .ok addresses)
    (hs : env.startNew
        (s.trace ++
          [Event.construct
              ⟨s.nextId, Kind.wallet, name, Options.emptyObject, s.world.logFilePathWallet⟩,
            Event.setPeerSeeds
              ⟨s.nextId, Kind.wallet, name, Options.emptyObject, s.world.logFilePathWallet⟩
              [PeerArg.arr addresses]])
        ⟨s.nextId, Kind.wallet, name, Options.emptyObject, s.world.logFilePathWallet⟩ = .ok ()) :
    (getOrCreateWallet env s name).1 =
        .ok (Val.handle
          ⟨s.nextId, Kind.wallet, name, Options.emptyObject, s.world.logFilePathWallet⟩) ∧
      getWallet env (getOrCreateWallet env s name).2 name =
        Val.handle
          ⟨s.nextId, Kind.wallet, name, Options.emptyObject, s.world.logFilePathWallet⟩ ∧
      (getOrCreateWallet env s name).2.trace =
        s.trace ++
          [Event.construct
              ⟨s.nextId, Kind.wallet, name, Options.emptyObject, s.world.logFilePathWallet⟩,
            Event.setPeerSeeds
              ⟨s.nextId, Kind.wallet, name, Options.emptyObject, s.world.logFilePathWallet⟩
              [PeerArg.arr addresses],
            Event.startNew
              ⟨s.nextId, Kind.wallet, name, Options.emptyObject, s.world.logFilePathWallet⟩] := by
  have h2 : truthy env.procShape (s.world.wallets.get env.procShape.has name) = false := h
  simp [getOrCreateWallet, h2, ha, createAndAddWallet, Sys.emit, Sys.alloc, hs, addWallet,
    getWallet, JsObj.get_set_same]

theorem getOrCreateWallet_of_start_error (env : Env) (s : Sys) (name : String)
    (addresses : List String) (e : Err)
    (h : truthy env.procShape (getWallet env s name) = false)
    (ha : seedAddresses env s = .ok addresses)
    (hs : env.startNew
        (s.trace ++
          [Event.construct
              ⟨s.nextId, Kind.wallet, name, Options.emptyObject, s.world.logFilePathWallet⟩,
            Event.setPeerSeeds
              ⟨s.nextId, Kind.wallet, name, Options.emptyObject, s.world.logFilePathWallet⟩
              [PeerArg.arr addresses]])
        ⟨s.nextId, Kind.wallet, name, Options.emptyObject, s.world.logFilePathWallet⟩ =
          .error e) :
    (getOrCreateWallet env s name).1 = .error e ∧
      (getOrCreateWallet env s name).2.world = s.world := by
  have h2 : truthy env.procShape (s.world.wallets.get env.procShape.has name) = false := h
  simp [getOrCreateWallet, getWallet, h2, ha, createAndAddWallet, Sys.emit, Sys.alloc, hs]

/-- C8, amended: `getOrCreateWallet(name)` fails only when nothing truthy is read under
`name` and either `seedAddresses()` throws or the start of the new wallet process
fails; it then fails with that error and the world is as before, so no wallet is
registered.  When the call succeeds, a second call with the same name returns the same
value and leaves the world, the allocation counter and the trace as they were, so it
creates and starts no further process; and when nothing truthy was read under `name`,
the value returned is one wallet, constructed, started and registered under `name` by
the first call. -/
theorem getOrCreateWallet_twice (env : Env) (s : Sys) (name : String) :
    (∀ w, (getOrCreateWallet env s name).1 = .ok w →
      getOrCreateWallet env (getOrCreateWallet env s name).2 name =
          (.ok w, (getOrCreateWallet env s name).2) ∧
        (truthy env.procShape (getWallet env s name) = false →
          ∃ wallet addresses,
            w = Val.handle wallet ∧
            getWallet env (getOrCreateWallet env s name).2 name = Val.handle wallet ∧
            (getOrCreateWallet env s name).2.trace =
              s.trace ++
                [Event.construct wallet, Event.setPeerSeeds wallet [PeerArg.arr addresses],
                  Event.startNew wallet])) ∧
    (∀ e, (getOrCreateWallet env s name).1 = .error e →
      truthy env.procShape (getWallet env s name) = false ∧
      (getOrCreateWallet env s name).2.world = s.world ∧
      (seedAddresses env s = .error e ∨
        ∃ addresses, seedAddresses env s = .ok addresses ∧
          env.startNew
              (s.trace ++
                [Event.construct
                    ⟨s.nextId, Kind.wallet, name, Options.emptyObject,
                      s.world.logFilePathWallet⟩,
                  Event.setPeerSeeds
                    ⟨s.nextId, Kind.wallet, name, Options.emptyObject,
                      s.world.logFilePathWallet⟩
                    [PeerArg.arr addresses]])
              ⟨s.nextId, Kind.wallet, name, Options.emptyObject, s.world.logFilePathWallet⟩ =
            .error e)) := by
  cases ht : truthy env.procShape (getWallet env s name) with
  | true =>
    have h1 := getOrCreateWallet_of_truthy env s name ht
    refine ⟨?_, ?_⟩
    · intro w hw
      rw [h1] at hw ⊢
      simp only [Except.ok.injEq] at hw
      refine ⟨?_, fun hf => by simp at hf⟩
      rw [← hw]
      exact h1
    · intro e he
      rw [h1] at he
      simp at he
  | false =>
    cases ha : seedAddresses env s with
    | error e1 =>
      have h1 := getOrCreateWallet_of_seedAddresses_error env s name e1 ht ha
      refine ⟨?_, ?_⟩
      · intro w hw
        rw [h1] at hw
        simp at hw
      · intro e he
        rw [h1] at he ⊢
        simp only [Except.error.injEq] at he
        subst he
        exact ⟨rfl, rfl, Or.inl rfl⟩
    | ok addresses =>
      cases hs : env.startNew
          (s.trace ++
            [Event.construct
                ⟨s.nextId, Kind.wallet, name, Options.emptyObject, s.world.logFilePathWallet⟩,
              Event.setPeerSeeds
                ⟨s.nextId, Kind.wallet, name, Options.emptyObject, s.world.logFilePathWallet⟩
                [PeerArg.arr addresses]])
          ⟨s.nextId, Kind.wallet, name, Options.emptyObject, s.world.logFilePathWallet⟩ with
      | error e1 =>
        obtain ⟨h1, h2⟩ := getOrCreateWallet_of_start_error env s name addresses e1 ht ha hs
        refine ⟨?_, ?_⟩
        · intro w hw
          rw [h1] at hw
          simp at hw
        · intro e he
          rw [h1] at he
          simp only [Except.error.injEq] at he
          subst he
          exact ⟨rfl, h2, Or.inr ⟨addresses, rfl, hs⟩⟩
      | ok u =>
        obtain ⟨h1, h2, h3⟩ := getOrCreateWallet_of_start_ok env s name addresses ht ha hs
        refine ⟨?_, ?_⟩
        · intro w hw
          rw [h1] at hw
          simp only [Except.ok.injEq] at hw
          subst hw
          refine ⟨?_, fun _ => ⟨_, addresses, rfl, h2, h3⟩⟩
          have h4 := getOrCreateWallet_of_truthy env (getOrCreateWallet env s name).2 name
            (by rw [h2]; rfl)
          rw [h4, h2]
        · intro e he
          rw [h1] at he
          simp at he

/-- On a world with two seeds, `getOrCreateWallet("w")` twice: one wallet, one start;
and under the name `constructor` the function inherited from `Object.prototype` is
returned twice and nothing is created. -/
theorem getOrCreateWallet_twice_witness :
    (getOrCreateWallet calmEnv
        (run calmEnv (fresh noParameters) [Op.createSeedNode "A", Op.createSeedNode "B"])
        "w").1 =
      .ok (Val.handle ⟨4, Kind.wallet, "w", Options.emptyObject, "./log4rs/wallet.yml"⟩) ∧
    getOrCreateWallet calmEnv
        (getOrCreateWallet calmEnv
          (run calmEnv (fresh noParameters) [Op.createSeedNode "A", Op.createSeedNode "B"])
          "w").2 "w" =
      (.ok (Val.handle ⟨4, Kind.wallet, "w", Options.emptyObject, "./log4rs/wallet.yml"⟩),
        (getOrCreateWallet calmEnv
          (run calmEnv (fresh noParameters) [Op.createSeedNode "A", Op.createSeedNode "B"])
          "w").2) ∧
    getOrCreateWallet calmEnv (fresh noParameters) "constructor" =
      (.ok (Val.builtin "constructor"), fresh noParameters) :=
  ⟨rfl,
    ((getOrCreateWallet_twice calmEnv
      (run calmEnv (fresh noParameters) [Op.createSeedNode "A", Op.createSeedNode "B"]) "w").1
      (Val.handle ⟨4, Kind.wallet, "w", Options.emptyObject, "./log4rs/wallet.yml"⟩) rfl).1,
    rfl⟩

/-! ## Fan-out over the clients -/

namespace JsObj

variable {α : Type}

theorem insertIndex_perm (i : Nat) (k : String) (l : List (Nat × String)) :
    ((insertIndex i k l).map Prod.snd).Perm (k :: l.map Prod.snd) := by
  induction l with
  | nil => simp [insertIndex]
  | cons jk rest ih =>
    obtain ⟨j, k'⟩ := jk
    by_cases h : i ≤ j
    · simp [insertIndex, h]
    · simp only [insertIndex, h, if_false, List.map_cons]
      exact (List.Perm.cons k' ih).trans (List.Perm.swap k k' _)

theorem forIn_perm_entries (l : List (String × α)) :
    ((indexKeys l).map Prod.snd ++ stringKeys l).Perm (l.map Prod.fst) := by
  induction l with
  | nil => simp [indexKeys, stringKeys]
  | cons kv rest ih =>
    obtain ⟨k, v⟩ := kv
    cases hk : arrayIndex k with
    | some i =>
      have h1 : stringKeys ((k, v) :: rest) = stringKeys rest := by
        simp [stringKeys, List.filter, hk]
      simp only [indexKeys, hk, h1, List.map_cons]
      exact ((insertIndex_perm i k (indexKeys rest)).append_right _).trans (List.Perm.cons k ih)
    | none =>
      have h1 : stringKeys ((k, v) :: rest) = k :: stringKeys rest := by
        simp [stringKeys, List.filter, hk]
      simp only [indexKeys, hk, h1, List.map_cons]
      exact List.perm_middle.trans (List.Perm.cons k ih)

/-- The own keys are visited once each. -/
theorem ownKeys_perm (o : JsObj α) : o.ownKeys.Perm o.ownNames :=
  forIn_perm_entries o.entries

theorem mem_names_of_getEntries_isSome (l : List (String × α)) (k : String)
    (h : (getEntries l k).isSome = true) : k ∈ l.map Prod.fst := by
  induction l with
  | nil => simp [getEntries] at h
  | cons kv rest ih =>
    obtain ⟨k', v'⟩ := kv
    by_cases hk : k' = k
    · simp [hk]
    · simp only [getEntries, hk, if_false] at h
      simp [ih h]

theorem ownNames_set_nodup (o : JsObj α) (k : String) (v : α) (h : o.ownNames.Nodup) :
    (o.set k v).ownNames.Nodup := by
  have hentries : (setEntries o.entries k v).map Prod.fst = o.entries.map Prod.fst ∨
      (setEntries o.entries k v).map Prod.fst = o.entries.map Prod.fst ++ [k] ∧
        k ∉ o.entries.map Prod.fst := by
    by_cases hk : k ∈ o.entries.map Prod.fst
    · exact Or.inl (setEntries_names_of_mem o.entries k v hk)
    · exact Or.inr ⟨setEntries_names_of_not_mem o.entries k v hk, hk⟩
  have hnodup : ((setEntries o.entries k v).map Prod.fst).Nodup := by
    rcases hentries with e | ⟨e, hk⟩
    · rw [e]
      exact h
    · rw [e]
      exact List.Nodup.append h (List.nodup_singleton k) (by simpa using hk)
  unfold set
  split
  · exact hnodup
  · split
    · exact h
    · exact hnodup

/-- While `__proto__` still reads as `Object.prototype`, no prototype is installed and
no own property carries that name. -/
theorem plain_of_get (has : α → String → Bool) (o : JsObj α)
    (h : o.get has "__proto__" = Val.objectPrototype) :
    o.proto = none ∧ getEntries o.entries "__proto__" = none := by
  unfold get at h
  cases hg : getEntries o.entries "__proto__" with
  | some v => simp [hg] at h
  | none =>
    cases hp : o.proto with
    | some p => simp [hg, hp] at h
    | none => exact ⟨rfl, rfl⟩

/-- On an object without installed prototype, `for ... in` visits exactly the names an
object is stored under. -/
theorem mem_forIn_iff (has : α → String → Bool) (enumerable : α → List String) (o : JsObj α)
    (h : o.get has "__proto__" = Val.objectPrototype) (n : String) :
    n ∈ o.forIn enumerable ↔ ∃ v, o.get has n = Val.handle v := by
  obtain ⟨hp, _⟩ := plain_of_get has o h
  rw [get_handle_iff]
  unfold forIn stores
  rw [hp]
  simp only [List.append_nil, Option.isSome_none, Bool.false_eq_true, and_false, or_false]
  rw [(ownKeys_perm o).mem_iff]
  exact ⟨getEntries_isSome_of_mem o.entries n, mem_names_of_getEntries_isSome o.entries n⟩

theorem forIn_nodup (has : α → String → Bool) (enumerable : α → List String) (o : JsObj α)
    (h : o.get has "__proto__" = Val.objectPrototype) (hn : o.ownNames.Nodup) :
    (o.forIn enumerable).Nodup := by
  obtain ⟨hp, _⟩ := plain_of_get has o h
  unfold forIn
  rw [hp]
  simp only [List.append_nil]
  exact (ownKeys_perm o).nodup_iff.mpr hn

end JsObj

/-- In a state reached from a fresh world no name occurs twice among the own
properties of `seeds`, nor among those of `nodes`. -/
theorem run_names_nodup (env : Env) (ops : List Op) (s : Sys)
    (h : s.world.seeds.ownNames.Nodup ∧ s.world.nodes.ownNames.Nodup) :
    (run env s ops).world.seeds.ownNames.Nodup ∧ (run env s ops).world.nodes.ownNames.Nodup := by
  induction ops generalizing s with
  | nil => exact h
  | cons op rest ih =>
    apply ih (step env s op)
    rcases step_registries env s op with ⟨h1, h2, _⟩ | ⟨name, p, c, h1, h2, _⟩ |
      ⟨name, p, c, h1, h2, _⟩
    · rw [h1, h2]
      exact h
    · rw [h1, h2]
      exact ⟨JsObj.ownNames_set_nodup _ _ _ h.1, h.2⟩
    · rw [h1, h2]
      exact ⟨h.1, JsObj.ownNames_set_nodup _ _ _ h.2⟩

/-- When no call of the action throws, every key is called and every promise kept. -/
theorem callAll_of_promises (env : Env) (f : List Event → Val Client → String → Called)
    (hf : ∀ history c n, ∃ r, f history c n = Called.promise r) (keys : List String)
    (s : Sys) :
    ∃ rs, callAll env f keys s =
        (.ok rs,
          { s with trace := s.trace ++ keys.map (fun n => Event.action (getClient env s n) n) }) ∧
      settled f (getClient env s) s.trace keys = rs.map Called.promise := by
  induction keys generalizing s with
  | nil => exact ⟨[], by simp [callAll], rfl⟩
  | cons key rest ih =>
    obtain ⟨r, hr⟩ := hf s.trace (getClient env s key) key
    obtain ⟨rs, h1, h2⟩ := ih (s.emit (Event.action (getClient env s key) key))
    refine ⟨r :: rs, ?_, ?_⟩
    · simp only [callAll, hr, h1]
      simp [Sys.emit, getClient]
    · simp only [settled, hr, List.map_cons]
      have h3 : getClient env (s.emit (Event.action (getClient env s key) key)) =
          getClient env s := rfl
      rw [h3] at h2
      exact congrArg _ h2

theorem settled_append (f : List Event → Val Client → String → Called)
    (client : String → Val Client) (history : List Event) (xs ys : List String) :
    settled f client history (xs ++ ys) =
      settled f client history xs ++
        settled f client (history ++ xs.map (fun n => Event.action (client n) n)) ys := by
  induction xs generalizing history with
  | nil => simp [settled]
  | cons x rest ih =>
    have hcons : (x :: rest) ++ ys = x :: (rest ++ ys) := rfl
    rw [hcons]
    simp only [settled, List.map_cons]
    rw [ih]
    simp

theorem rejections_eq_nil_iff (l : List (Except Err Unit)) :
    rejections l = [] ↔ ∀ r ∈ l, ∀ e, r ≠ .error e := by
  induction l with
  | nil => simp [rejections]
  | cons r rest ih =>
    cases r with
    | ok u => simp [rejections, ih]
    | error e => simp [rejections]

theorem promiseAll_error_iff (env : Env) (l : List (Except Err Unit)) :
    (∃ e, promiseAll env l = .error e) ↔ ∃ r ∈ l, ∃ e, r = .error e := by
  unfold promiseAll
  cases hr : rejections l with
  | nil =>
    have h := (rejections_eq_nil_iff l).mp hr
    constructor
    · rintro ⟨e, he⟩
      simp at he
    · rintro ⟨r, hm, e, he⟩
      exact absurd he (h r hm e)
  | cons e es =>
    constructor
    · intro _
      by_contra hcon
      have hnil : rejections l = [] := by
        rw [rejections_eq_nil_iff]
        intro r hm e2 he2
        exact hcon ⟨r, hm, e2, he2⟩
      rw [hnil] at hr
      simp at hr
    · intro _
      exact ⟨_, rfl⟩

/-- C5, amended: in a state reached from a fresh world in which `__proto__` was not
used as a seed or node name and no name is registered both as a seed and as a node, and
for an action none of whose calls throws, `forEachClientAsync(f)` calls
`f(getClient(name), name)` exactly once for each name registered in `seeds` and each
name registered in `nodes`, seeds before nodes, each time on a registered client; it
leaves the world as it was; and it fails exactly when the promise of one of these
calls is rejected. -/
theorem forEachClientAsync_calls (env : Env) (parameters : Parameters) (ops : List Op)
    (s : Sys) (f : List Event → Val Client → String → Called)
    (hs : s = run env (fresh parameters) ops)
    (hseeds : s.world.seeds.get env.procShape.has "__proto__" = Val.objectPrototype)
    (hnodes : s.world.nodes.get env.procShape.has "__proto__" = Val.objectPrototype)
    (hdisj : ∀ n ∈ s.world.seeds.forIn env.procShape.enumerable,
      n ∉ s.world.nodes.forIn env.procShape.enumerable)
    (hf : ∀ history c n, ∃ r, f history c n = Called.promise r) :
    (forEachClientAsync env s f).2 =
      { s with trace := (s.trace ++
          (s.world.seeds.forIn env.procShape.enumerable ++
            s.world.nodes.forIn env.procShape.enumerable).map
            (fun n => Event.action (getClient env s n) n)) } ∧
    (s.world.seeds.forIn env.procShape.enumerable ++
      s.world.nodes.forIn env.procShape.enumerable).Nodup ∧
    (∀ n, n ∈ s.world.seeds.forIn env.procShape.enumerable ++
          s.world.nodes.forIn env.procShape.enumerable ↔
        ((∃ p, s.world.seeds.get env.procShape.has n = Val.handle p) ∨
          (∃ p, s.world.nodes.get env.procShape.has n = Val.handle p))) ∧
    (∀ n ∈ s.world.seeds.forIn env.procShape.enumerable ++
        s.world.nodes.forIn env.procShape.enumerable,
      ∃ c, getClient env s n = Val.handle c) ∧
    ((∃ e, (forEachClientAsync env s f).1 = .error e) ↔
      ∃ r ∈ settled f (getClient env s) s.trace
          (s.world.seeds.forIn env.procShape.enumerable ++
            s.world.nodes.forIn env.procShape.enumerable),
        ∃ e, r = Called.promise (.error e)) := by
  have hnodup : s.world.seeds.ownNames.Nodup ∧ s.world.nodes.ownNames.Nodup := by
    rw [hs]
    exact run_names_nodup env ops (fresh parameters)
      ⟨by simp [fresh, JsObj.empty, JsObj.ownNames], by simp [fresh, JsObj.empty, JsObj.ownNames]⟩
  have hcover : ClientsCover env s.world := by
    rw [hs]
    exact run_clientsCover env ops _ (fresh_clientsCover env parameters)
  have hmem : ∀ n, n ∈ s.world.seeds.forIn env.procShape.enumerable ++
        s.world.nodes.forIn env.procShape.enumerable ↔
      ((∃ p, s.world.seeds.get env.procShape.has n = Val.handle p) ∨
        (∃ p, s.world.nodes.get env.procShape.has n = Val.handle p)) := by
    intro n
    rw [List.mem_append, JsObj.mem_forIn_iff env.procShape.has _ _ hseeds,
      JsObj.mem_forIn_iff env.procShape.has _ _ hnodes]
  obtain ⟨rs1, hc1, hset1⟩ := callAll_of_promises env f hf
    (s.world.seeds.forIn env.procShape.enumerable) s
  obtain ⟨rs2, hc2, hset2⟩ := callAll_of_promises env f hf
    (s.world.nodes.forIn env.procShape.enumerable)
    { s with trace := (s.trace ++ (s.world.seeds.forIn env.procShape.enumerable).map
        (fun n => Event.action (getClient env s n) n)) }
  have hrun : forEachClientAsync env s f =
      (promiseAll env (rs1 ++ rs2),
        { s with trace := (s.trace ++
            (s.world.seeds.forIn env.procShape.enumerable ++
              s.world.nodes.forIn env.procShape.enumerable).map
              (fun n => Event.action (getClient env s n) n)) }) := by
    unfold forEachClientAsync
    simp only [hc1, hc2]
    simp [getClient]
  have hsettled : settled f (getClient env s) s.trace
      (s.world.seeds.forIn env.procShape.enumerable ++
        s.world.nodes.forIn env.procShape.enumerable) = (rs1 ++ rs2).map Called.promise := by
    rw [settled_append, hset1, List.map_append]
    exact congrArg _ hset2
  refine ⟨?_, ?_, hmem, ?_, ?_⟩
  · rw [hrun]
  · refine List.Nodup.append (JsObj.forIn_nodup env.procShape.has _ _ hseeds hnodup.1)
      (JsObj.forIn_nodup env.procShape.has _ _ hnodes hnodup.2) ?_
    intro n h1 h2
    exact hdisj n h1 h2
  · intro n hn
    exact hcover n ((hmem n).mp hn)
  · rw [hrun, hsettled]
    simp only [promiseAll_error_iff, List.mem_map]
    constructor
    · rintro ⟨r, hm, e, he⟩
      exact ⟨Called.promise r, ⟨r, hm, rfl⟩, e, by rw [he]⟩
    · rintro ⟨c, ⟨r, hm, hrc⟩, e, he⟩
      refine ⟨r, hm, e, ?_⟩
      rw [← hrc] at he
      exact Called.promise.inj he

/-- A seed `a` and a node `b`, and an action whose promises are fulfilled: one call
for `a`, then one for `b`. -/
theorem forEachClientAsync_calls_witness :
    (forEachClientAsync calmEnv
        (run calmEnv (fresh noParameters) [Op.createSeedNode "a", Op.addNode "b" nodeA])
        calmAction).2.trace =
      (run calmEnv (fresh noParameters) [Op.createSeedNode "a", Op.addNode "b" nodeA]).trace ++
        [Event.action
            (Val.handle ⟨1, ⟨0, Kind.baseNode, "seed-a", Options.null, "./log4rs/base_node.yml"⟩⟩)
            "a",
          Event.action (Val.handle ⟨2, nodeA⟩) "b"] := by
  have h := (forEachClientAsync_calls calmEnv noParameters
    [Op.createSeedNode "a", Op.addNode "b" nodeA]
    (run calmEnv (fresh noParameters) [Op.createSeedNode "a", Op.addNode "b" nodeA])
    calmAction rfl (by decide) (by decide) (by decide) (fun _ _ _ => ⟨_, rfl⟩)).1
  rw [h]
  decide

/-- C5 as stated fails.  With a seed and a node both named `a`, the action is called
twice on the client registered under `a`.  With seeds `a` and `b` and an action that
throws, the method is rejected after the call for `a` and no call is made for `b`.
With a seed named `__proto__`, no call is made for that seed: the one call is for the
`name` field of the process installed as prototype, and it gets no client. -/
theorem forEachClientAsync_calls_twice_on_shared_name :
    (forEachClientAsync calmEnv
        (run calmEnv (fresh noParameters) [Op.createSeedNode "a", Op.addNode "a" nodeA])
        calmAction).2.trace =
      (run calmEnv (fresh noParameters) [Op.createSeedNode "a", Op.addNode "a" nodeA]).trace ++
        [Event.action (Val.handle ⟨2, nodeA⟩) "a", Event.action (Val.handle ⟨2, nodeA⟩) "a"] ∧
    (forEachClientAsync calmEnv
        (run calmEnv (fresh noParameters) [Op.createSeedNode "a", Op.createSeedNode "b"])
        throwingAction).2.trace =
      (run calmEnv (fresh noParameters) [Op.createSeedNode "a", Op.createSeedNode "b"]).trace ++
        [Event.action
          (Val.handle ⟨1, ⟨0, Kind.baseNode, "seed-a", Options.null, "./log4rs/base_node.yml"⟩⟩)
          "a"] ∧
    (forEachClientAsync calmEnv
        (run calmEnv (fresh noParameters) [Op.createSeedNode "__proto__"]) calmAction).2.trace =
      (run calmEnv (fresh noParameters) [Op.createSeedNode "__proto__"]).trace ++
        [Event.action Val.undefined "name"] := by
  decide

/-! ## Teardown -/

/-- C2: a seed and a node are both registered under `a`; the `After` hook stops the
seed process twice and never stops the node process. -/
theorem After_stops_seed_twice_and_not_the_node :
    (After calmEnv
        (run calmEnv (fresh noParameters) [Op.createSeedNode "a", Op.addNode "a" nodeA])).1 =
      .ok () ∧
    (After calmEnv
        (run calmEnv (fresh noParameters) [Op.createSeedNode "a", Op.addNode "a" nodeA])).2.trace =
      (run calmEnv (fresh noParameters) [Op.createSeedNode "a", Op.addNode "a" nodeA]).trace ++
        [Event.log "Stopping nodes" none,
          Event.stop ⟨0, Kind.baseNode, "seed-a", Options.null, "./log4rs/base_node.yml"⟩,
          Event.stop ⟨0, Kind.baseNode, "seed-a", Options.null, "./log4rs/base_node.yml"⟩] ∧
    (run calmEnv (fresh noParameters)
        [Op.createSeedNode "a", Op.addNode "a" nodeA]).world.nodes.get calmEnv.procShape.has "a"
      = Val.handle nodeA ∧
    Event.stop nodeA ∉
      (After calmEnv
        (run calmEnv (fresh noParameters) [Op.createSeedNode "a", Op.addNode "a" nodeA])).2.trace := by
  refine ⟨rfl, by decide, by decide, by decide⟩

end CustomWorld
